import Mathlib

/-!
Verification of the layout-and-physics engine of the 2NDMIND graph view.

The engine lives in `src/components/graph/engine/{math,layout,physics}.ts`.
Coordinates are modelled by exact rationals; the JavaScript `Map` and
`Record` containers are modelled by insertion-ordered association lists,
which reproduces JavaScript's key-iteration order; `Math.sqrt` is modelled
by an explicit `rsqrt` parameter constrained only where a theorem needs it.
-/

namespace MindOS

attribute [local semireducible] Rat.add Rat.mul Rat.sub Rat.inv Rat.ofScientific

/-! ### Association lists modelling JavaScript `Map` / `Record` -/

/-- Lookup of the (unique) binding of key `k`, like `Map.get`. -/
def alGet {κ α : Type _} [DecidableEq κ] : List (κ × α) → κ → Option α
  | [], _ => none
  | (k', v) :: rest, k => if k' = k then some v else alGet rest k

/-- `Map.set`: replace the binding in place if the key is present, else
append a new binding at the end (JavaScript insertion order). -/
def alSet {κ α : Type _} [DecidableEq κ] : List (κ × α) → κ → α → List (κ × α)
  | [], k, v => [(k, v)]
  | (k', v') :: rest, k, v =>
      if k' = k then (k, v) :: rest else (k', v') :: alSet rest k v

/-! ### Geometry kernel (`engine/math.ts`) -/

/-- 2D position with exact rational coordinates. -/
structure Position where
  x : ℚ
  y : ℚ
  deriving DecidableEq, Repr

/-- `clamp(value, min, max) = Math.max(min, Math.min(max, value))`. -/
def clamp (value lo hi : ℚ) : ℚ := max lo (min hi value)

/-- `snapToGrid(value, gridSize) = Math.round(value / gridSize) * gridSize`;
`round` is Mathlib's round-half-up, which agrees with `Math.round`. -/
def snapToGrid (value gridSize : ℚ) : ℚ := (round (value / gridSize) : ℤ) * gridSize

/-- `snapPosition` snaps both coordinates. -/
def snapPosition (p : Position) (gridSize : ℚ) : Position :=
  ⟨snapToGrid p.x gridSize, snapToGrid p.y gridSize⟩

/-- `distanceSquared(a, b) = dx*dx + dy*dy`. -/
def distanceSquared (a b : Position) : ℚ :=
  (a.x - b.x) * (a.x - b.x) + (a.y - b.y) * (a.y - b.y)

/-! ### Core data model (`types/core.ts`), restricted to the fields the
layout and physics engine reads -/

/-- Relation kinds (`EdgeType`). -/
inductive EdgeType where
  | CAUSES | SUPPORTS | CONTRASTS | EXTENDS | PART_OF | LINKS | DEPENDS_ON | RELATES
  deriving DecidableEq, Repr

/-- Node kinds (`NodeKind`). -/
inductive NodeKind where
  | NOTE | IDEA | TASK | TAG
  deriving DecidableEq, Repr

/-- Graph node, as consumed by the engine (content fields omitted). -/
structure Node where
  id : String
  tags : List String
  createdAt : ℚ
  kind : NodeKind
  position : Position
  locked : Bool
  frameId : Option String
  deriving DecidableEq, Repr

/-- Graph edge, as consumed by the engine. -/
structure Edge where
  id : String
  sourceId : String
  targetId : String
  type : EdgeType
  deriving DecidableEq, Repr

/-- Frame size. -/
structure Size where
  width : ℚ
  height : ℚ
  deriving DecidableEq, Repr

/-- Grouping frame; used by physics only as an attraction anchor. -/
structure Frame where
  id : String
  position : Position
  size : Size
  deriving DecidableEq, Repr

/-- Force weights of `PhysicsConstraints.forces`. -/
structure Forces where
  spring : ℚ
  repulsion : ℚ
  frameMagnet : ℚ
  deriving DecidableEq, Repr

/-- `PhysicsConstraints`. -/
structure PhysicsConstraints where
  maxOffset : ℚ
  returnDuration : ℚ
  enablePhysics : Bool
  gridSnap : ℚ
  repulsionRadius : ℚ
  forces : Forces
  deriving DecidableEq, Repr

/-! ### Physics simulator (`engine/physics.ts`) -/

/-- Per-node simulation entry (`PhysicsNodeState`). -/
structure PhysicsNodeState where
  position : Position
  velocity : Position
  target : Position
  deriving DecidableEq, Repr

/-- The simulation-state `Map<NodeId, PhysicsNodeState>`. -/
def PhysicsState := List (String × PhysicsNodeState)

/-- `createZeroVector()`. -/
def createZeroVector : Position := ⟨0, 0⟩

/-- `initializePhysicsState(nodes, gridSnap)`. -/
def initializePhysicsState (nodes : List Node) (gridSnap : ℚ) : PhysicsState :=
  nodes.foldl (fun s n =>
    alSet s n.id ⟨snapPosition n.position gridSnap, createZeroVector,
      snapPosition n.position gridSnap⟩) []

/-- `syncPhysicsTargets(state, layout, gridSnap)`: per incoming id, snap the
value into the existing entry's target, or create an entry whose position
and target both start at the snapped value. -/
def syncPhysicsTargets (state : PhysicsState) (layout : List (String × Position))
    (gridSnap : ℚ) : PhysicsState :=
  layout.foldl (fun s p =>
    match alGet s p.1 with
    | some existing =>
        alSet s p.1 ⟨existing.position, existing.velocity, snapPosition p.2 gridSnap⟩
    | none =>
        alSet s p.1 ⟨snapPosition p.2 gridSnap, createZeroVector,
          snapPosition p.2 gridSnap⟩) state

/-- `ensureStateForNode`: lazily create the entry for a node at its snapped
committed position. -/
def ensureStateForNode (state : PhysicsState) (node : Node) (gridSnap : ℚ) :
    PhysicsState :=
  match alGet state node.id with
  | some _ => state
  | none =>
      alSet state node.id ⟨snapPosition node.position gridSnap, createZeroVector,
        snapPosition node.position gridSnap⟩

/-- `FRAME_FORCE_MULTIPLIER = 0.15`. -/
def FRAME_FORCE_MULTIPLIER : ℚ := 0.15

/-- Repulsion accumulation over the other entries: for each other node within
`repulsionRadius`, add `(d / |d|) * repulsion / |d|^2` to the force. `rsqrt`
stands for `Math.sqrt`; `state` is read live, as the in-place JS loop does. -/
def accumulateRepulsion (rsqrt : ℚ → ℚ) (c : PhysicsConstraints)
    (state : PhysicsState) (node : Node) (pos : Position) (nodes : List Node)
    (f : Position) : Position :=
  nodes.foldl (fun acc other =>
    if other.id = node.id then acc
    else
      match alGet state other.id with
      | none => acc
      | some otherPhysics =>
          let dx := pos.x - otherPhysics.position.x
          let dy := pos.y - otherPhysics.position.y
          let distSq := dx * dx + dy * dy
          if 0 < distSq ∧ distSq < c.repulsionRadius * c.repulsionRadius then
            let d0 := rsqrt distSq
            let dist := if d0 = 0 then 1 else d0
            let strength := c.forces.repulsion / distSq
            ⟨acc.x + dx / dist * strength, acc.y + dy / dist * strength⟩
          else acc) f

/-- The clamp-to-`maxOffset` and settle tail of the per-node loop
(`stepPhysics` lines 166-192), applied to the integrated position and
velocity. -/
def clampSettle (rsqrt : ℚ → ℚ) (c : PhysicsConstraints) (target : Position)
    (pos vel : Position) : PhysicsNodeState × Bool :=
  let offsetX := pos.x - target.x
  let offsetY := pos.y - target.y
  let offsetDistance := rsqrt (offsetX * offsetX + offsetY * offsetY)
  let clamped : Position × Position :=
    if c.maxOffset < offsetDistance then
      (⟨target.x + offsetX * (c.maxOffset /
          (if offsetDistance = 0 then 1 else offsetDistance)),
        target.y + offsetY * (c.maxOffset /
          (if offsetDistance = 0 then 1 else offsetDistance))⟩,
       ⟨vel.x * 0.6, vel.y * 0.6⟩)
    else (pos, vel)
  let velocityMagnitude :=
    rsqrt (clamped.2.x * clamped.2.x + clamped.2.y * clamped.2.y)
  if offsetDistance < c.gridSnap * 0.4 ∧ velocityMagnitude < 0.08 then
    (⟨snapPosition target c.gridSnap, createZeroVector, target⟩, false)
  else
    (⟨clamped.1, clamped.2, target⟩,
     0.02 < velocityMagnitude ∨ 4 < distanceSquared clamped.1 target)

/-- The force/integrate/clamp/settle computation for one non-locked,
non-dragged node (`stepPhysics` main loop lines 129-192): returns the new
entry together with this node's contribution to `hasMovement`. -/
def stepFreeEntry (rsqrt : ℚ → ℚ) (c : PhysicsConstraints)
    (frameCenters : List (String × Position)) (dt : ℚ) (nodes : List Node)
    (s : PhysicsState) (node : Node) (physics : PhysicsNodeState) :
    PhysicsNodeState × Bool :=
  let forceSpring : Position :=
    ⟨(physics.target.x - physics.position.x) * c.forces.spring,
     (physics.target.y - physics.position.y) * c.forces.spring⟩
  let forceFrame : Position :=
    match node.frameId with
    | none => forceSpring
    | some fid =>
        match alGet frameCenters fid with
        | none => forceSpring
        | some ctr =>
            ⟨forceSpring.x + (ctr.x - physics.position.x) * c.forces.frameMagnet *
                FRAME_FORCE_MULTIPLIER,
             forceSpring.y + (ctr.y - physics.position.y) * c.forces.frameMagnet *
                FRAME_FORCE_MULTIPLIER⟩
  let force := accumulateRepulsion rsqrt c s node physics.position nodes forceFrame
  let vel : Position :=
    ⟨(physics.velocity.x + force.x * dt) * 0.82,
     (physics.velocity.y + force.y * dt) * 0.82⟩
  let pos : Position :=
    ⟨physics.position.x + vel.x * dt, physics.position.y + vel.y * dt⟩
  clampSettle rsqrt c physics.target pos vel

/-- One iteration of the main `entries.forEach` loop of `stepPhysics`,
threading the mutable state and the `hasMovement` flag. -/
def stepOneNode (rsqrt : ℚ → ℚ) (c : PhysicsConstraints)
    (frameCenters : List (String × Position)) (dt : ℚ) (nodes : List Node)
    (draggingIds : List String) (acc : PhysicsState × Bool) (node : Node) :
    PhysicsState × Bool :=
  match alGet acc.1 node.id with
  | none => acc
  | some physics =>
      if node.locked = true ∨ node.id ∈ draggingIds then
        (alSet acc.1 node.id
          ⟨snapPosition physics.target c.gridSnap, createZeroVector, physics.target⟩,
         acc.2)
      else
        let r := stepFreeEntry rsqrt c frameCenters dt nodes acc.1 node physics
        (alSet acc.1 node.id r.1, acc.2 || r.2)

/-- The lazy-initialization pass at the top of `stepPhysics`
(`nodes.forEach(ensureStateForNode)`). -/
def ensureAll (gridSnap : ℚ) (state : PhysicsState) (nodes : List Node) :
    PhysicsState :=
  nodes.foldl (fun s n => ensureStateForNode s n gridSnap) state

/-- Freeze of one entry in the physics-disabled branch: snap position onto
the target, zero the velocity. -/
def freezeEntry (gridSnap : ℚ) (e : PhysicsNodeState) : PhysicsNodeState :=
  ⟨snapPosition e.target gridSnap, createZeroVector, e.target⟩

/-- The target re-snap pass (`entries.forEach(physics.target = snap(...))`)
running over the entries of the passed nodes. -/
def snapTargetsForNodes (gridSnap : ℚ) (state : PhysicsState)
    (nodes : List Node) : PhysicsState :=
  nodes.foldl (fun s n =>
    match alGet s n.id with
    | some e => alSet s n.id ⟨e.position, e.velocity, snapPosition e.target gridSnap⟩
    | none => s) state

/-- The frame-centroid map computed at the top of `stepPhysics`. -/
def frameCentersOf (frames : List Frame) : List (String × Position) :=
  frames.foldl (fun m fr =>
    alSet m fr.id ⟨fr.position.x + fr.size.width / 2,
      fr.position.y + fr.size.height / 2⟩) []

/-- `stepPhysics({state, nodes, constraints, deltaMs, draggingIds, frames})`:
returns the state after the tick together with the `hasMovement` flag. -/
def stepPhysics (rsqrt : ℚ → ℚ) (state : PhysicsState) (nodes : List Node)
    (c : PhysicsConstraints) (deltaMs : ℚ) (draggingIds : List String)
    (frames : List Frame) : PhysicsState × Bool :=
  if nodes = [] then (state, false)
  else
    let dt := clamp deltaMs 0 48 / 16.666
    let state1 := ensureAll c.gridSnap state nodes
    if c.enablePhysics = false then
      (state1.map (fun p => (p.1, freezeEntry c.gridSnap p.2)), false)
    else
      let state2 := snapTargetsForNodes c.gridSnap state1 nodes
      nodes.foldl (stepOneNode rsqrt c (frameCentersOf frames) dt nodes draggingIds)
        (state2, false)

/-! ### Layout engine (`engine/layout.ts`) -/

/-- Layout modes. -/
inductive LayoutMode where
  | flowGrid | byTags | byTypes | byCausality | byTime
  deriving DecidableEq, Repr

/-- Resolved layout options (defaults already merged in). -/
structure LayoutOptions where
  gridSize : ℚ
  columnSpacing : ℚ
  rowSpacing : ℚ
  margin : ℚ
  maxPerColumn : ℚ
  deriving DecidableEq, Repr

/-- `DEFAULT_LAYOUT_OPTIONS`. -/
def DEFAULT_LAYOUT_OPTIONS : LayoutOptions :=
  ⟨8, 240, 160, 120, 8⟩

/-- Result record of a layout computation. -/
structure LayoutComputation where
  positions : List (String × Position)
  groups : List (String × List String)
  layers : List (String × ℤ)
  deriving DecidableEq, Repr

/-- `DIRECTIONAL_EDGE_TYPES` membership. -/
def isDirectional (t : EdgeType) : Bool :=
  match t with
  | .CAUSES | .SUPPORTS | .EXTENDS | .PART_OF | .DEPENDS_ON => true
  | _ => false

/-- `ORDERED_NODE_KINDS`. -/
def ORDERED_NODE_KINDS : List NodeKind := [.NOTE, .IDEA, .TASK, .TAG]

/-- String value of a `NodeKind`, used as its group key. -/
def kindKey : NodeKind → String
  | .NOTE => "note"
  | .IDEA => "idea"
  | .TASK => "task"
  | .TAG => "tag"

/-- Stable insertion: place `a` before the first element it compares
less-or-equal to. Together with `stableSort` this is the unique stable sort
(the semantics of `Array.prototype.sort` for a consistent comparator). -/
def orderedInsert {α : Type _} (le : α → α → Bool) (a : α) : List α → List α
  | [] => [a]
  | b :: l => if le a b then a :: b :: l else b :: orderedInsert le a l

/-- Stable sort by the boolean comparison `le`. -/
def stableSort {α : Type _} (le : α → α → Bool) (l : List α) : List α :=
  l.foldr (orderedInsert le) []

/-- One queue item of the `buildLayers` worklist. -/
structure QItem where
  id : String
  layer : ℤ
  deriving DecidableEq, Repr

/-- Neighbor visit of `buildLayers`: decrement the neighbor's indegree; at
zero or below, enqueue it one layer deeper; otherwise relax its recorded
layer to the maximum. The accumulator is (indegree, layers, pushed items). -/
def relaxNeighbor (nextLayer : ℤ)
    (acc : List (String × ℤ) × List (String × ℤ) × List QItem) (n : String) :
    List (String × ℤ) × List (String × ℤ) × List QItem :=
  let nextIndegree := (alGet acc.1 n).getD 0 - 1
  let ind := alSet acc.1 n nextIndegree
  if nextIndegree ≤ 0 then (ind, acc.2.1, acc.2.2 ++ [⟨n, nextLayer⟩])
  else (ind, alSet acc.2.1 n (max ((alGet acc.2.1 n).getD 0) nextLayer), acc.2.2)

/-- Skip guard of the `buildLayers` worklist loop: a dequeued item is dropped
when the node already has a recorded layer at least as deep. -/
def blSkip (layers : List (String × ℤ)) (cur : QItem) : Bool :=
  match alGet layers cur.id with
  | some l => cur.layer ≤ l
  | none => false

/-- The `while (queue.length > 0)` loop of `buildLayers`, with explicit fuel:
the source loop does not terminate on all inputs (indegrees may go negative
inside directional cycles and keep re-enqueueing), so running out of fuel
with a non-empty queue yields `none`. -/
def blLoop (adj : List (String × List String)) :
    Nat → List QItem → List (String × ℤ) → List (String × ℤ) →
    Option (List (String × ℤ))
  | _, [], _, layers => some layers
  | 0, _ :: _, _, _ => none
  | Nat.succ fuel, cur :: rest, indegree, layers =>
      if blSkip layers cur then blLoop adj fuel rest indegree layers
      else
        let layers1 := alSet layers cur.id cur.layer
        let nbrs := (alGet adj cur.id).getD []
        let step := nbrs.foldl (relaxNeighbor (cur.layer + 1)) (indegree, layers1, [])
        blLoop adj fuel (rest ++ step.2.2) step.1 step.2.1

/-- Indegree and adjacency maps over the directional subgraph, exactly as the
`edges.forEach` of `buildLayers` builds them: the adjacency push is guarded
by the source id having an adjacency entry, but the indegree increment of the
target id is not guarded at all. -/
def buildIndegreeAdjacency (nodes : List Node) (edges : List Edge) :
    List (String × ℤ) × List (String × List String) :=
  let ind0 := nodes.foldl (fun m n => alSet m n.id 0) []
  let adj0 := nodes.foldl (fun m n => alSet m n.id []) []
  edges.foldl (fun acc e =>
    if isDirectional e.type = false then acc
    else
      let adj :=
        match alGet acc.2 e.sourceId with
        | some ns => alSet acc.2 e.sourceId (ns ++ [e.targetId])
        | none => acc.2
      (alSet acc.1 e.targetId ((alGet acc.1 e.targetId).getD 0 + 1), adj))
    (ind0, adj0)

/-- Body of the `edges.forEach` of `buildLayers`, extracted as a named step
function (`buildIndegreeAdjacency` folds it over the edge list). -/
def edgeFoldStep (acc : List (String × ℤ) × List (String × List String))
    (e : Edge) : List (String × ℤ) × List (String × List String) :=
  if isDirectional e.type = false then acc
  else
    let adj :=
      match alGet acc.2 e.sourceId with
      | some ns => alSet acc.2 e.sourceId (ns ++ [e.targetId])
      | none => acc.2
    (alSet acc.1 e.targetId ((alGet acc.1 e.targetId).getD 0 + 1), adj)

/-- `buildLayers(nodes, edges)`: seed the worklist with the indegree-zero
ids, run the loop, then default every node without a layer to 0. -/
def buildLayers (fuel : Nat) (nodes : List Node) (edges : List Edge) :
    Option (List (String × ℤ)) :=
  let ia := buildIndegreeAdjacency nodes edges
  let queue0 := (ia.1.filter (fun p => p.2 = 0)).map (fun p => QItem.mk p.1 0)
  (blLoop ia.2 fuel queue0 ia.1 []).map (fun layers =>
    nodes.foldl (fun l n =>
      if (alGet l n.id).isSome then l else alSet l n.id 0) layers)

/-- Append a node to its bucket, like the
`if (!grouped.has(k)) grouped.set(k, []); grouped.get(k)!.push(node)` idiom. -/
def bucketAdd {κ : Type _} [DecidableEq κ] (m : List (κ × List Node)) (k : κ)
    (n : Node) : List (κ × List Node) :=
  match alGet m k with
  | some ns => alSet m k (ns ++ [n])
  | none => alSet m k [n]

/-- Group-by loop shared by the layouts: bucket each node passing the guard
`P` under its key. -/
def groupFold {κ : Type _} [DecidableEq κ] (P : Node → Bool) (key : Node → κ)
    (l : List Node) (acc : List (κ × List Node)) : List (κ × List Node) :=
  l.foldl (fun m n => if P n = true then bucketAdd m (key n) n else m) acc

/-- Vertical comparison used by every within-column sort:
`(a, b) => a.position.y - b.position.y`. -/
def leY (a b : Node) : Bool := a.position.y ≤ b.position.y

/-- Inner loop of `assignPositionsFromGroups`: place the nodes of one column. -/
def assignColumn (options : LayoutOptions) (groupId : String) (x : ℚ)
    (columnIndex : ℤ) (acc : LayoutComputation) (p : Nat × Node) :
    LayoutComputation :=
  let y := snapToGrid (options.margin + (p.1 : ℚ) * options.rowSpacing) options.gridSize
  { positions := alSet acc.positions p.2.id ⟨x, y⟩
    groups := alSet acc.groups groupId (((alGet acc.groups groupId).getD []) ++ [p.2.id])
    layers := alSet acc.layers p.2.id columnIndex }

/-- Outer loop of `assignPositionsFromGroups`: one indexed column. -/
def assignGroup (options : LayoutOptions) (acc : LayoutComputation)
    (gp : Nat × (String × List Node)) : LayoutComputation :=
  (stableSort leY gp.2.2).enum.foldl
    (assignColumn options gp.2.1
      (snapToGrid (options.margin + (gp.1 : ℚ) * options.columnSpacing) options.gridSize)
      (gp.1 : ℤ)) acc

/-- `assignPositionsFromGroups(groupedNodes, options)`. -/
def assignPositionsFromGroups (groupedNodes : List (String × List Node))
    (options : LayoutOptions) : LayoutComputation :=
  groupedNodes.enum.foldl (assignGroup options) ⟨[], [], []⟩

/-- Inner loop of `computeFlowGridLayout`: place one node of a layer column.
Unlike `assignColumn` it leaves the layers map (the `buildLayers` output)
untouched. -/
def flowAssignNode (options : LayoutOptions) (layerKey : String) (x : ℚ)
    (acc : LayoutComputation) (p : Nat × Node) : LayoutComputation :=
  let y := snapToGrid (options.margin + (p.1 : ℚ) * options.rowSpacing) options.gridSize
  { positions := alSet acc.positions p.2.id ⟨x, y⟩
    groups := alSet acc.groups layerKey
      (((alGet acc.groups layerKey).getD []) ++ [p.2.id])
    layers := acc.layers }

/-- Outer loop of `computeFlowGridLayout`: one indexed layer column. -/
def flowAssignColumn (options : LayoutOptions) (acc : LayoutComputation)
    (gp : Nat × (ℤ × List Node)) : LayoutComputation :=
  (stableSort leY gp.2.2).enum.foldl
    (flowAssignNode options ("layer:" ++ toString gp.2.1)
      (snapToGrid (options.margin + (gp.1 : ℚ) * options.columnSpacing) options.gridSize))
    acc

/-- `computeFlowGridLayout(nodes, edges, options)`; `none` exactly when the
layering loop exhausts its fuel. -/
def computeFlowGridLayout (fuel : Nat) (nodes : List Node) (edges : List Edge)
    (options : LayoutOptions) : Option LayoutComputation :=
  if nodes = [] then some ⟨[], [], []⟩
  else
    (buildLayers fuel nodes edges).map (fun layers =>
      let grouped := groupFold (fun _ => true) (fun n => (alGet layers n.id).getD 0) nodes []
      let sortedLayers := stableSort (fun a b => a.1 ≤ b.1) grouped
      sortedLayers.enum.foldl (flowAssignColumn options) ⟨[], [], layers⟩)

/-- `layoutByTags(nodes, options)`. -/
def layoutByTags (nodes : List Node) (options : LayoutOptions) :
    LayoutComputation :=
  let tagGroups := groupFold (fun n => !n.tags.isEmpty) (fun n => n.tags.headD "") nodes []
  let untagged := nodes.filter (fun n => n.tags.isEmpty)
  let entries := stableSort (fun a b => a.1 ≤ b.1) tagGroups
  let entries2 := if untagged.isEmpty then entries else entries ++ [("untagged", untagged)]
  assignPositionsFromGroups entries2 options

/-- `layoutByTypes(nodes, options)`. -/
def layoutByTypes (nodes : List Node) (options : LayoutOptions) :
    LayoutComputation :=
  let typeGroups := groupFold (fun _ => true) (fun n => n.kind) nodes []
  let entries := (ORDERED_NODE_KINDS.filter (fun k => (alGet typeGroups k).isSome)).map
    (fun k => (kindKey k, (alGet typeGroups k).getD []))
  assignPositionsFromGroups entries options

/-- Truncating division as JavaScript's `%` uses it. -/
def jsTrunc (q : ℚ) : ℤ := if 0 ≤ q then ⌊q⌋ else ⌈q⌉

/-- Body of the `layoutByTime` loop: place the node at index `p.1`, wrapping
into a new column every `maxPerColumn` rows (`Math.floor` / `%`). -/
def timeAssignNode (options : LayoutOptions) (acc : LayoutComputation)
    (p : Nat × Node) : LayoutComputation :=
  let column : ℤ := ⌊(p.1 : ℚ) / options.maxPerColumn⌋
  let row : ℚ := (p.1 : ℚ) - (jsTrunc ((p.1 : ℚ) / options.maxPerColumn) : ℚ) *
    options.maxPerColumn
  let x := snapToGrid (options.margin + (column : ℚ) * options.columnSpacing)
    options.gridSize
  let y := snapToGrid (options.margin + row * options.rowSpacing) options.gridSize
  { positions := alSet acc.positions p.2.id ⟨x, y⟩
    groups :=
      alSet acc.groups ("time:" ++ toString column)
        (((alGet acc.groups ("time:" ++ toString column)).getD []) ++ [p.2.id])
    layers := alSet acc.layers p.2.id column }

/-- `layoutByTime(nodes, options)`: sort ascending by creation time and pack
into columns of `maxPerColumn` rows. -/
def layoutByTime (nodes : List Node) (options : LayoutOptions) :
    LayoutComputation :=
  if nodes = [] then ⟨[], [], []⟩
  else
    let sorted := stableSort (fun a b => a.createdAt ≤ b.createdAt) nodes
    sorted.enum.foldl (timeAssignNode options) ⟨[], [], []⟩

/-- `computeLayout(mode, nodes, edges, options)`; `byCausality` and the
default branch share the flow-grid computation. -/
def computeLayout (fuel : Nat) (mode : LayoutMode) (nodes : List Node)
    (edges : List Edge) (options : LayoutOptions) : Option LayoutComputation :=
  match mode with
  | .byTags => some (layoutByTags nodes options)
  | .byTypes => some (layoutByTypes nodes options)
  | .byTime => some (layoutByTime nodes options)
  | .byCausality => computeFlowGridLayout fuel nodes edges options
  | .flowGrid => computeFlowGridLayout fuel nodes edges options

/-- `mergeLayouts(base, update)`. -/
def mergeLayouts (base update : List (String × Position)) :
    List (String × Position) :=
  update.foldl (fun m p => alSet m p.1 p.2) base

/-! ### Concrete fixtures used by witnesses and counterexamples -/

/-- All positions in the map are exact multiples of the grid size. -/
def gridAligned (g : ℚ) (m : List (String × Position)) : Prop :=
  ∀ id p, alGet m id = some p → (∃ k : ℤ, p.x = k * g) ∧ (∃ k : ℤ, p.y = k * g)

/-- A bare note node with no tags at the origin. -/
def testNode (id : String) : Node := ⟨id, [], 0, .NOTE, ⟨0, 0⟩, false, none⟩

/-- A node with tags. -/
def taggedNode (id : String) (tags : List String) : Node :=
  ⟨id, tags, 0, .NOTE, ⟨0, 0⟩, false, none⟩

/-- A directional causal edge. -/
def causalEdge (s t : String) : Edge := ⟨s ++ t, s, t, .CAUSES⟩

/-- The `tactile` constraints preset (physics enabled). -/
def cTactile : PhysicsConstraints := ⟨32, 500, true, 8, 64, ⟨0.12, 120, 0.12⟩⟩

/-- The `static` constraints preset (physics disabled). -/
def cStatic : PhysicsConstraints := ⟨0, 0, false, 8, 48, ⟨0.05, 40, 0.1⟩⟩

/-- A computable over-approximation of the square root: it satisfies
`0 ≤ sqrtUB x` and `x ≤ sqrtUB x * sqrtUB x` on nonnegative inputs, the only
facts about `Math.sqrt` the bounded-offset argument uses. -/
def sqrtUB (x : ℚ) : ℚ := if x ≤ 1 then 1 else x

/-- Simulation state fixture: entries for ids `a` and `c`. -/
def demoState : PhysicsState :=
  [("a", ⟨⟨1, 1⟩, ⟨2, 2⟩, ⟨9, 9⟩⟩), ("c", ⟨⟨7, 7⟩, ⟨1, 0⟩, ⟨16, 16⟩⟩)]

/-- Layout fixture: a new target for `a`, a fresh id `b`, nothing for `c`. -/
def demoLayout : List (String × Position) := [("a", ⟨3, 3⟩), ("b", ⟨5, 5⟩)]

/-! ### Association-list lemmas -/

theorem alGet_alSet_self {κ α : Type _} [DecidableEq κ]
    (m : List (κ × α)) (k : κ) (v : α) : alGet (alSet m k v) k = some v := by
  induction m with
  | nil => simp [alGet, alSet]
  | cons p rest ih =>
      rcases p with ⟨k', v'⟩
      by_cases h : k' = k <;> simp [alGet, alSet, h, ih]

theorem alGet_alSet_ne {κ α : Type _} [DecidableEq κ]
    (m : List (κ × α)) (k k' : κ) (v : α) (h : k ≠ k') :
    alGet (alSet m k v) k' = alGet m k' := by
  induction m with
  | nil => simp [alGet, alSet, h]
  | cons p rest ih =>
      rcases p with ⟨k₀, v₀⟩
      by_cases h0 : k₀ = k
      · subst h0; simp [alGet, alSet, h]
      · simp only [alSet, if_neg h0]
        by_cases h1 : k₀ = k' <;> simp [alGet, h1, ih]

theorem alGet_alSet_isSome {κ α : Type _} [DecidableEq κ]
    (m : List (κ × α)) (k k' : κ) (v : α) (h : (alGet m k').isSome) :
    (alGet (alSet m k v) k').isSome := by
  by_cases hk : k = k'
  · subst hk; simp [alGet_alSet_self]
  · rwa [alGet_alSet_ne m k k' v hk]

theorem alGet_map {κ α β : Type _} [DecidableEq κ]
    (f : α → β) (m : List (κ × α)) (k : κ) :
    alGet (m.map (fun p => (p.1, f p.2))) k = (alGet m k).map f := by
  induction m with
  | nil => simp [alGet]
  | cons p rest ih =>
      by_cases h : p.1 = k <;> simp [alGet, h, ih]


theorem snapToGrid_idem (v g : ℚ) : snapToGrid (snapToGrid v g) g = snapToGrid v g := by
  by_cases hg : g = 0
  · simp [snapToGrid, hg]
  · unfold snapToGrid
    rw [mul_div_assoc, div_self hg, mul_one, round_intCast]

theorem snapPosition_idem (p : Position) (g : ℚ) :
    snapPosition (snapPosition p g) g = snapPosition p g := by
  simp [snapPosition, snapToGrid_idem]

theorem snapToGrid_isMultiple (v g : ℚ) : ∃ k : ℤ, snapToGrid v g = k * g :=
  ⟨round (v / g), rfl⟩


theorem alGet_eq_none_iff {κ α : Type _} [DecidableEq κ]
    (m : List (κ × α)) (k : κ) : alGet m k = none ↔ k ∉ m.map Prod.fst := by
  induction m with
  | nil => simp [alGet]
  | cons p rest ih =>
      by_cases h : p.1 = k
      · subst h; simp [alGet]
      · simp [alGet, h, ih, Ne.symm h]

theorem alGet_isSome_iff_mem_keys {κ α : Type _} [DecidableEq κ]
    (m : List (κ × α)) (k : κ) :
    (alGet m k).isSome ↔ k ∈ m.map Prod.fst := by
  rw [← Option.ne_none_iff_isSome]
  constructor
  · intro h
    by_contra hc
    exact h ((alGet_eq_none_iff m k).mpr hc)
  · intro h hn
    exact (alGet_eq_none_iff m k).mp hn h

theorem alSet_of_get_none {κ α : Type _} [DecidableEq κ]
    (m : List (κ × α)) (k : κ) (v : α) (h : alGet m k = none) :
    alSet m k v = m ++ [(k, v)] := by
  induction m with
  | nil => simp [alSet]
  | cons p rest ih =>
      rcases p with ⟨k₀, v₀⟩
      by_cases h0 : k₀ = k
      · simp [alGet, h0] at h
      · simp only [alGet, if_neg h0] at h
        simp [alSet, h0, ih h]

theorem alSet_alSet_same {κ α : Type _} [DecidableEq κ]
    (m : List (κ × α)) (k : κ) (v w : α) :
    alSet (alSet m k v) k w = alSet m k w := by
  induction m with
  | nil => simp [alSet]
  | cons p rest ih =>
      rcases p with ⟨k₀, v₀⟩
      by_cases h0 : k₀ = k <;> simp [alSet, h0, ih]

theorem alGet_append_some {κ α : Type _} [DecidableEq κ]
    (m₁ m₂ : List (κ × α)) (k : κ) (v : α) (h : alGet m₁ k = some v) :
    alGet (m₁ ++ m₂) k = some v := by
  induction m₁ with
  | nil => simp [alGet] at h
  | cons p rest ih =>
      by_cases h0 : p.1 = k
      · simp [alGet, h0] at h ⊢; exact h
      · simp only [alGet, if_neg h0] at h
        simpa [alGet, h0] using ih h

theorem alGet_append_none {κ α : Type _} [DecidableEq κ]
    (m₁ m₂ : List (κ × α)) (k : κ) (h : alGet m₁ k = none) :
    alGet (m₁ ++ m₂) k = alGet m₂ k := by
  induction m₁ with
  | nil => simp
  | cons p rest ih =>
      by_cases h0 : p.1 = k
      · simp [alGet, h0] at h
      · simp only [alGet, if_neg h0] at h
        simpa [alGet, h0] using ih h

theorem alGet_mem {κ α : Type _} [DecidableEq κ]
    (m : List (κ × α)) (k : κ) (v : α) (h : alGet m k = some v) : (k, v) ∈ m := by
  induction m with
  | nil => simp [alGet] at h
  | cons p rest ih =>
      rcases p with ⟨a, b⟩
      by_cases h0 : a = k
      · simp only [alGet, if_pos h0] at h
        subst h0
        injection h with h
        subst h
        exact List.mem_cons_self _ _
      · simp only [alGet, if_neg h0] at h
        exact List.mem_cons_of_mem _ (ih h)

theorem alGet_of_mem_of_nodup {κ α : Type _} [DecidableEq κ]
    (m : List (κ × α)) (k : κ) (v : α) (hn : (m.map Prod.fst).Nodup)
    (h : (k, v) ∈ m) : alGet m k = some v := by
  induction m with
  | nil => simp at h
  | cons p rest ih =>
      simp only [List.map_cons, List.nodup_cons] at hn
      rcases List.mem_cons.mp h with h | h
      · subst h; simp [alGet]
      · have hk : p.1 ≠ k := by
          intro he
          exact hn.1 (he ▸ List.mem_map.mpr ⟨(k, v), h, rfl⟩)
        simp [alGet, hk, ih hn.2 h]

theorem alGet_perm_of_nodup {κ α : Type _} [DecidableEq κ]
    (m₁ m₂ : List (κ × α)) (hp : m₁.Perm m₂) (hn : (m₁.map Prod.fst).Nodup)
    (k : κ) : alGet m₁ k = alGet m₂ k := by
  have hn₂ : (m₂.map Prod.fst).Nodup := ((hp.map Prod.fst).nodup_iff).mp hn
  rcases h1 : alGet m₁ k with _ | v
  · rcases h2 : alGet m₂ k with _ | w
    · rfl
    · have := hp.mem_iff.mpr (alGet_mem m₂ k w h2)
      rw [alGet_eq_none_iff] at h1
      exact absurd (List.mem_map.mpr ⟨(k, w), this, rfl⟩) h1
  · exact (alGet_of_mem_of_nodup m₂ k v hn₂ (hp.mem_iff.mp (alGet_mem m₁ k v h1))).symm

theorem alSet_keys_of_isSome {κ α : Type _} [DecidableEq κ]
    (m : List (κ × α)) (k : κ) (v : α) (h : (alGet m k).isSome) :
    (alSet m k v).map Prod.fst = m.map Prod.fst := by
  induction m with
  | nil => simp [alGet] at h
  | cons p rest ih =>
      by_cases h0 : p.1 = k
      · cases p; simp_all [alSet]
      · simp only [alGet, if_neg h0] at h
        simp [alSet, h0, ih h]

theorem alSet_keys_nodup {κ α : Type _} [DecidableEq κ]
    (m : List (κ × α)) (k : κ) (v : α) (hn : (m.map Prod.fst).Nodup) :
    ((alSet m k v).map Prod.fst).Nodup := by
  rcases h : alGet m k with _ | w
  · rw [alSet_of_get_none m k v h]
    rw [alGet_eq_none_iff] at h
    rw [List.map_append, List.nodup_append]
    refine ⟨hn, by simp, ?_⟩
    intro a ha hb
    simp only [List.map_cons, List.map_nil, List.mem_singleton] at hb
    exact h (hb ▸ ha)
  · rw [alSet_keys_of_isSome m k v (by simp [h])]
    exact hn

/-! ### Stable-sort lemmas -/

theorem orderedInsert_perm {α : Type _} (le : α → α → Bool) (a : α)
    (l : List α) : (orderedInsert le a l).Perm (a :: l) := by
  induction l with
  | nil => simp [orderedInsert]
  | cons b rest ih =>
      by_cases h : le a b
      · simp [orderedInsert, h]
      · simp only [orderedInsert, if_neg h]
        exact (ih.cons b).trans (List.Perm.swap a b rest)

theorem stableSort_perm {α : Type _} (le : α → α → Bool) (l : List α) :
    (stableSort le l).Perm l := by
  induction l with
  | nil => simp [stableSort]
  | cons a rest ih =>
      exact (orderedInsert_perm le a (stableSort le rest)).trans (ih.cons a)

theorem orderedInsert_pairwise {α : Type _} (le : α → α → Bool)
    (htot : ∀ x y, le x y = true ∨ le y x = true)
    (htrans : ∀ x y z, le x y = true → le y z = true → le x z = true)
    (a : α) : ∀ (l : List α),
    l.Pairwise (fun x y => le x y = true) →
    (orderedInsert le a l).Pairwise (fun x y => le x y = true)
  | [], _ => by simp [orderedInsert]
  | b :: rest, hs => by
      rcases List.pairwise_cons.mp hs with ⟨hb, hrest⟩
      by_cases h : le a b = true
      · simp only [orderedInsert, if_pos h]
        refine List.pairwise_cons.mpr ⟨?_, hs⟩
        intro x hx
        rcases List.mem_cons.mp hx with hx | hx
        · subst hx; exact h
        · exact htrans a b x h (hb x hx)
      · simp only [orderedInsert, if_neg h]
        refine List.pairwise_cons.mpr
          ⟨?_, orderedInsert_pairwise le htot htrans a rest hrest⟩
        intro x hx
        have hx2 := (orderedInsert_perm le a rest).mem_iff.mp hx
        rcases List.mem_cons.mp hx2 with hx2 | hx2
        · rw [hx2]
          rcases htot a b with h1 | h1
          · exact absurd h1 h
          · exact h1
        · exact hb x hx2

/-! ### Lemmas on the physics state phases -/

theorem syncTargets_get_absent (g : ℚ) (id : String) :
    ∀ (layout : List (String × Position)) (state : PhysicsState),
    alGet layout id = none →
    alGet (syncPhysicsTargets state layout g) id = alGet state id
  | [], state, _ => rfl
  | (k, v) :: rest, state, h => by
      have hk : k ≠ id := by
        intro he
        simp [alGet, he] at h
      have hrest : alGet rest id = none := by
        simpa [alGet, hk] using h
      have step : syncPhysicsTargets state ((k, v) :: rest) g =
          syncPhysicsTargets (match alGet state k with
            | some e => alSet state k ⟨e.position, e.velocity, snapPosition v g⟩
            | none => alSet state k ⟨snapPosition v g, createZeroVector,
                snapPosition v g⟩) rest g := rfl
      rw [step, syncTargets_get_absent g id rest _ hrest]
      rcases alGet state k with _ | e <;> simp [alGet_alSet_ne _ _ _ _ hk]

theorem syncTargets_get_existing (g : ℚ) (id : String) :
    ∀ (layout : List (String × Position)) (state : PhysicsState)
      (p : Position) (e : PhysicsNodeState),
    (layout.map Prod.fst).Nodup →
    alGet layout id = some p → alGet state id = some e →
    alGet (syncPhysicsTargets state layout g) id =
      some ⟨e.position, e.velocity, snapPosition p g⟩
  | [], _, _, _, _, hl, _ => by simp [alGet] at hl
  | (k, v) :: rest, state, p, e, hn, hl, hs => by
      rw [List.map_cons] at hn
      rcases List.nodup_cons.mp hn with ⟨hk, hn2⟩
      by_cases hke : k = id
      · subst hke
        have hp : p = v := by
          simp only [alGet, if_pos rfl] at hl
          exact (Option.some_injective _ hl).symm
        subst hp
        have hrest : alGet rest k = none := (alGet_eq_none_iff rest k).mpr hk
        have step : syncPhysicsTargets state ((k, p) :: rest) g =
            syncPhysicsTargets
              (alSet state k ⟨e.position, e.velocity, snapPosition p g⟩) rest g := by
          simp only [syncPhysicsTargets, List.foldl_cons, hs]
        rw [step, syncTargets_get_absent g k rest _ hrest, alGet_alSet_self]
      · have hl2 : alGet rest id = some p := by simpa [alGet, hke] using hl
        rcases h0 : alGet state k with _ | e0
        · have step : syncPhysicsTargets state ((k, v) :: rest) g =
              syncPhysicsTargets
                (alSet state k ⟨snapPosition v g, createZeroVector, snapPosition v g⟩)
                rest g := by
            simp only [syncPhysicsTargets, List.foldl_cons, h0]
          rw [step]
          exact syncTargets_get_existing g id rest _ p e hn2 hl2
            ((alGet_alSet_ne _ _ _ _ hke).trans hs)
        · have step : syncPhysicsTargets state ((k, v) :: rest) g =
              syncPhysicsTargets
                (alSet state k ⟨e0.position, e0.velocity, snapPosition v g⟩) rest g := by
            simp only [syncPhysicsTargets, List.foldl_cons, h0]
          rw [step]
          exact syncTargets_get_existing g id rest _ p e hn2 hl2
            ((alGet_alSet_ne _ _ _ _ hke).trans hs)

theorem syncTargets_get_new (g : ℚ) (id : String) :
    ∀ (layout : List (String × Position)) (state : PhysicsState) (p : Position),
    (layout.map Prod.fst).Nodup →
    alGet layout id = some p → alGet state id = none →
    alGet (syncPhysicsTargets state layout g) id =
      some ⟨snapPosition p g, createZeroVector, snapPosition p g⟩
  | [], _, _, _, hl, _ => by simp [alGet] at hl
  | (k, v) :: rest, state, p, hn, hl, hs => by
      rw [List.map_cons] at hn
      rcases List.nodup_cons.mp hn with ⟨hk, hn2⟩
      by_cases hke : k = id
      · subst hke
        have hp : p = v := by
          simp only [alGet, if_pos rfl] at hl
          exact (Option.some_injective _ hl).symm
        subst hp
        have hrest : alGet rest k = none := (alGet_eq_none_iff rest k).mpr hk
        have step : syncPhysicsTargets state ((k, p) :: rest) g =
            syncPhysicsTargets
              (alSet state k ⟨snapPosition p g, createZeroVector, snapPosition p g⟩)
              rest g := by
          simp only [syncPhysicsTargets, List.foldl_cons, hs]
        rw [step, syncTargets_get_absent g k rest _ hrest, alGet_alSet_self]
      · have hl2 : alGet rest id = some p := by simpa [alGet, hke] using hl
        rcases h0 : alGet state k with _ | e0
        · have step : syncPhysicsTargets state ((k, v) :: rest) g =
              syncPhysicsTargets
                (alSet state k ⟨snapPosition v g, createZeroVector, snapPosition v g⟩)
                rest g := by
            simp only [syncPhysicsTargets, List.foldl_cons, h0]
          rw [step]
          exact syncTargets_get_new g id rest _ p hn2 hl2
            ((alGet_alSet_ne _ _ _ _ hke).trans hs)
        · have step : syncPhysicsTargets state ((k, v) :: rest) g =
              syncPhysicsTargets
                (alSet state k ⟨e0.position, e0.velocity, snapPosition v g⟩) rest g := by
            simp only [syncPhysicsTargets, List.foldl_cons, h0]
          rw [step]
          exact syncTargets_get_new g id rest _ p hn2 hl2
            ((alGet_alSet_ne _ _ _ _ hke).trans hs)

theorem ensure_get_of_some (s : PhysicsState) (n : Node) (g : ℚ) (id : String)
    (e : PhysicsNodeState) (h : alGet s id = some e) :
    alGet (ensureStateForNode s n g) id = some e := by
  unfold ensureStateForNode
  rcases h0 : alGet s n.id with _ | e0
  · by_cases hid : n.id = id
    · subst hid; rw [h] at h0; cases h0
    · rw [alGet_alSet_ne _ _ _ _ hid]; exact h
  · exact h

theorem ensure_isSome_mono (s : PhysicsState) (n : Node) (g : ℚ) (id : String)
    (h : (alGet s id).isSome) : (alGet (ensureStateForNode s n g) id).isSome := by
  rcases Option.isSome_iff_exists.mp h with ⟨e, he⟩
  rw [ensure_get_of_some s n g id e he]
  rfl

theorem ensure_isSome_self (s : PhysicsState) (n : Node) (g : ℚ) :
    (alGet (ensureStateForNode s n g) n.id).isSome := by
  unfold ensureStateForNode
  rcases h0 : alGet s n.id with _ | e0
  · rw [alGet_alSet_self]; rfl
  · rw [h0]; rfl

theorem ensure_eq_of_isSome (s : PhysicsState) (n : Node) (g : ℚ)
    (h : (alGet s n.id).isSome) : ensureStateForNode s n g = s := by
  unfold ensureStateForNode
  rcases h0 : alGet s n.id with _ | e0
  · rw [h0] at h; cases h
  · rfl

theorem ensureAll_get_of_some (g : ℚ) (id : String) (e : PhysicsNodeState) :
    ∀ (nodes : List Node) (s : PhysicsState), alGet s id = some e →
    alGet (ensureAll g s nodes) id = some e
  | [], _, h => h
  | n :: rest, s, h =>
      ensureAll_get_of_some g id e rest _ (ensure_get_of_some s n g id e h)

theorem ensureAll_isSome_mono (g : ℚ) (id : String) :
    ∀ (nodes : List Node) (s : PhysicsState), (alGet s id).isSome →
    (alGet (ensureAll g s nodes) id).isSome
  | [], _, h => h
  | n :: rest, s, h =>
      ensureAll_isSome_mono g id rest _ (ensure_isSome_mono s n g id h)

theorem ensureAll_isSome_of_mem (g : ℚ) :
    ∀ (nodes : List Node) (s : PhysicsState) (n : Node), n ∈ nodes →
    (alGet (ensureAll g s nodes) n.id).isSome
  | [], _, _, h => absurd h (List.not_mem_nil _)
  | m :: rest, s, n, h => by
      rcases List.mem_cons.mp h with h | h
      · subst h
        exact ensureAll_isSome_mono g n.id rest _ (ensure_isSome_self s n g)
      · exact ensureAll_isSome_of_mem g rest _ n h

theorem ensureAll_eq_of_all_isSome (g : ℚ) :
    ∀ (nodes : List Node) (s : PhysicsState),
    (∀ n ∈ nodes, (alGet s n.id).isSome) → ensureAll g s nodes = s
  | [], _, _ => rfl
  | n :: rest, s, h => by
      have h1 : ensureStateForNode s n g = s :=
        ensure_eq_of_isSome s n g (h n (List.mem_cons_self n rest))
      have step : ensureAll g s (n :: rest) = ensureAll g (ensureStateForNode s n g) rest := rfl
      rw [step, h1]
      exact ensureAll_eq_of_all_isSome g rest s (fun m hm => h m (List.mem_cons_of_mem n hm))

theorem snapTargets_get_notmem (g : ℚ) (id : String) :
    ∀ (nodes : List Node) (s : PhysicsState), id ∉ nodes.map Node.id →
    alGet (snapTargetsForNodes g s nodes) id = alGet s id
  | [], _, _ => rfl
  | n :: rest, s, h => by
      have hid : n.id ≠ id := fun he => h (by simp [he])
      have hrest : id ∉ rest.map Node.id := fun hm => h (by simp [hm])
      rcases h0 : alGet s n.id with _ | e
      · have step : snapTargetsForNodes g s (n :: rest) = snapTargetsForNodes g s rest := by
          simp only [snapTargetsForNodes, List.foldl_cons, h0]
        rw [step]
        exact snapTargets_get_notmem g id rest s hrest
      · have step : snapTargetsForNodes g s (n :: rest) = snapTargetsForNodes g
            (alSet s n.id ⟨e.position, e.velocity, snapPosition e.target g⟩) rest := by
          simp only [snapTargetsForNodes, List.foldl_cons, h0]
        rw [step, snapTargets_get_notmem g id rest _ hrest]
        exact alGet_alSet_ne _ _ _ _ hid

theorem snapTargets_get_of_some_mem (g : ℚ) (id : String) :
    ∀ (nodes : List Node) (s : PhysicsState) (e : PhysicsNodeState),
    alGet s id = some e → id ∈ nodes.map Node.id →
    alGet (snapTargetsForNodes g s nodes) id =
      some ⟨e.position, e.velocity, snapPosition e.target g⟩
  | [], _, _, _, hm => absurd hm (List.not_mem_nil _)
  | n :: rest, s, e, hs, hm => by
      by_cases hid : n.id = id
      · subst hid
        have step : snapTargetsForNodes g s (n :: rest) =
            snapTargetsForNodes g
              (alSet s n.id ⟨e.position, e.velocity, snapPosition e.target g⟩) rest := by
          simp only [snapTargetsForNodes, List.foldl_cons, hs]
        rw [step]
        by_cases hr : n.id ∈ rest.map Node.id
        · rw [snapTargets_get_of_some_mem g n.id rest _
            ⟨e.position, e.velocity, snapPosition e.target g⟩ (alGet_alSet_self _ _ _) hr]
          simp [snapPosition_idem]
        · rw [snapTargets_get_notmem g n.id rest _ hr, alGet_alSet_self]
      · have hm2 : id ∈ rest.map Node.id := by
          rcases List.mem_map.mp hm with ⟨m, hmem, hme⟩
          rcases List.mem_cons.mp hmem with h | h
          · exact absurd (h ▸ hme) hid
          · exact List.mem_map.mpr ⟨m, h, hme⟩
        rcases h0 : alGet s n.id with _ | e0
        · have step : snapTargetsForNodes g s (n :: rest) = snapTargetsForNodes g s rest := by
            simp only [snapTargetsForNodes, List.foldl_cons, h0]
          rw [step]
          exact snapTargets_get_of_some_mem g id rest s e hs hm2
        · have step : snapTargetsForNodes g s (n :: rest) = snapTargetsForNodes g
              (alSet s n.id ⟨e0.position, e0.velocity, snapPosition e0.target g⟩) rest := by
            simp only [snapTargetsForNodes, List.foldl_cons, h0]
          rw [step]
          exact snapTargets_get_of_some_mem g id rest _ e
            ((alGet_alSet_ne _ _ _ _ hid).trans hs) hm2

theorem snapTargets_isSome_mono (g : ℚ) (id : String) :
    ∀ (nodes : List Node) (s : PhysicsState), (alGet s id).isSome →
    (alGet (snapTargetsForNodes g s nodes) id).isSome
  | [], _, h => h
  | n :: rest, s, h => by
      rcases h0 : alGet s n.id with _ | e0
      · have step : snapTargetsForNodes g s (n :: rest) = snapTargetsForNodes g s rest := by
          simp only [snapTargetsForNodes, List.foldl_cons, h0]
        rw [step]
        exact snapTargets_isSome_mono g id rest s h
      · have step : snapTargetsForNodes g s (n :: rest) = snapTargetsForNodes g
            (alSet s n.id ⟨e0.position, e0.velocity, snapPosition e0.target g⟩) rest := by
          simp only [snapTargetsForNodes, List.foldl_cons, h0]
        rw [step]
        exact snapTargets_isSome_mono g id rest _ (alGet_alSet_isSome _ _ _ _ h)

theorem stableSort_pairwise {α : Type _} (le : α → α → Bool)
    (htot : ∀ a b, le a b = true ∨ le b a = true)
    (htrans : ∀ a b c, le a b = true → le b c = true → le a c = true)
    (l : List α) :
    (stableSort le l).Pairwise (fun x y => le x y = true) := by
  induction l with
  | nil => simp [stableSort]
  | cons a rest ih =>
      exact orderedInsert_pairwise le htot htrans a (stableSort le rest) ih

/-! ### Lemmas on the main physics loop -/

theorem clampSettle_target (rsqrt : ℚ → ℚ) (c : PhysicsConstraints)
    (target pos vel : Position) :
    (clampSettle rsqrt c target pos vel).1.target = target := by
  unfold clampSettle
  dsimp only
  rw [apply_ite Prod.fst, apply_ite PhysicsNodeState.target]
  simp

theorem stepFreeEntry_target (rsqrt : ℚ → ℚ) (c : PhysicsConstraints)
    (fc : List (String × Position)) (dt : ℚ) (nodes : List Node)
    (s : PhysicsState) (node : Node) (physics : PhysicsNodeState) :
    (stepFreeEntry rsqrt c fc dt nodes s node physics).1.target = physics.target := by
  unfold stepFreeEntry
  dsimp only
  exact clampSettle_target rsqrt c physics.target _ _

theorem stepOne_none (rsqrt : ℚ → ℚ) (c : PhysicsConstraints)
    (fc : List (String × Position)) (dt : ℚ) (nodes : List Node)
    (dragging : List String) (acc : PhysicsState × Bool) (node : Node)
    (h : alGet acc.1 node.id = none) :
    stepOneNode rsqrt c fc dt nodes dragging acc node = acc := by
  simp only [stepOneNode, h]

theorem stepOne_some_held (rsqrt : ℚ → ℚ) (c : PhysicsConstraints)
    (fc : List (String × Position)) (dt : ℚ) (nodes : List Node)
    (dragging : List String) (acc : PhysicsState × Bool) (node : Node)
    (physics : PhysicsNodeState) (h : alGet acc.1 node.id = some physics)
    (hl : node.locked = true ∨ node.id ∈ dragging) :
    stepOneNode rsqrt c fc dt nodes dragging acc node =
      (alSet acc.1 node.id
        ⟨snapPosition physics.target c.gridSnap, createZeroVector, physics.target⟩,
       acc.2) := by
  simp only [stepOneNode, h, if_pos hl]

theorem stepOne_some_free (rsqrt : ℚ → ℚ) (c : PhysicsConstraints)
    (fc : List (String × Position)) (dt : ℚ) (nodes : List Node)
    (dragging : List String) (acc : PhysicsState × Bool) (node : Node)
    (physics : PhysicsNodeState) (h : alGet acc.1 node.id = some physics)
    (hl : ¬(node.locked = true ∨ node.id ∈ dragging)) :
    stepOneNode rsqrt c fc dt nodes dragging acc node =
      (alSet acc.1 node.id (stepFreeEntry rsqrt c fc dt nodes acc.1 node physics).1,
       acc.2 || (stepFreeEntry rsqrt c fc dt nodes acc.1 node physics).2) := by
  simp only [stepOneNode, h, if_neg hl]

theorem stepOne_get_ne (rsqrt : ℚ → ℚ) (c : PhysicsConstraints)
    (fc : List (String × Position)) (dt : ℚ) (nodes : List Node)
    (dragging : List String) (acc : PhysicsState × Bool) (node : Node)
    (id : String) (h : node.id ≠ id) :
    alGet (stepOneNode rsqrt c fc dt nodes dragging acc node).1 id = alGet acc.1 id := by
  rcases halg : alGet acc.1 node.id with _ | physics
  · rw [stepOne_none rsqrt c fc dt nodes dragging acc node halg]
  · by_cases hl : node.locked = true ∨ node.id ∈ dragging
    · rw [stepOne_some_held rsqrt c fc dt nodes dragging acc node physics halg hl]
      exact alGet_alSet_ne _ _ _ _ h
    · rw [stepOne_some_free rsqrt c fc dt nodes dragging acc node physics halg hl]
      exact alGet_alSet_ne _ _ _ _ h

theorem stepOne_isSome_mono (rsqrt : ℚ → ℚ) (c : PhysicsConstraints)
    (fc : List (String × Position)) (dt : ℚ) (nodes : List Node)
    (dragging : List String) (acc : PhysicsState × Bool) (node : Node)
    (id : String) (h : (alGet acc.1 id).isSome) :
    (alGet (stepOneNode rsqrt c fc dt nodes dragging acc node).1 id).isSome := by
  rcases halg : alGet acc.1 node.id with _ | physics
  · rw [stepOne_none rsqrt c fc dt nodes dragging acc node halg]
    exact h
  · by_cases hl : node.locked = true ∨ node.id ∈ dragging
    · rw [stepOne_some_held rsqrt c fc dt nodes dragging acc node physics halg hl]
      exact alGet_alSet_isSome _ _ _ _ h
    · rw [stepOne_some_free rsqrt c fc dt nodes dragging acc node physics halg hl]
      exact alGet_alSet_isSome _ _ _ _ h

theorem stepOne_target_map (rsqrt : ℚ → ℚ) (c : PhysicsConstraints)
    (fc : List (String × Position)) (dt : ℚ) (nodes : List Node)
    (dragging : List String) (acc : PhysicsState × Bool) (node : Node)
    (id : String) :
    (alGet (stepOneNode rsqrt c fc dt nodes dragging acc node).1 id).map
        PhysicsNodeState.target =
      (alGet acc.1 id).map PhysicsNodeState.target := by
  by_cases hid : node.id = id
  · subst hid
    rcases halg : alGet acc.1 node.id with _ | physics
    · rw [stepOne_none rsqrt c fc dt nodes dragging acc node halg, halg]
    · by_cases hl : node.locked = true ∨ node.id ∈ dragging
      · rw [stepOne_some_held rsqrt c fc dt nodes dragging acc node physics halg hl]
        rw [alGet_alSet_self]
        rfl
      · rw [stepOne_some_free rsqrt c fc dt nodes dragging acc node physics halg hl]
        rw [alGet_alSet_self]
        simp [stepFreeEntry_target]
  · rw [stepOne_get_ne rsqrt c fc dt nodes dragging acc node id hid]

theorem foldStep_get_notmem (rsqrt : ℚ → ℚ) (c : PhysicsConstraints)
    (fc : List (String × Position)) (dt : ℚ) (nodesAll : List Node)
    (dragging : List String) (id : String) :
    ∀ (l : List Node) (acc : PhysicsState × Bool), id ∉ l.map Node.id →
    alGet (l.foldl (stepOneNode rsqrt c fc dt nodesAll dragging) acc).1 id =
      alGet acc.1 id
  | [], _, _ => rfl
  | n :: rest, acc, h => by
      have hid : n.id ≠ id := fun he => h (by simp [he])
      have hrest : id ∉ rest.map Node.id := fun hm => h (by simp [hm])
      rw [List.foldl_cons,
        foldStep_get_notmem rsqrt c fc dt nodesAll dragging id rest _ hrest,
        stepOne_get_ne rsqrt c fc dt nodesAll dragging acc n id hid]

theorem foldStep_isSome_mono (rsqrt : ℚ → ℚ) (c : PhysicsConstraints)
    (fc : List (String × Position)) (dt : ℚ) (nodesAll : List Node)
    (dragging : List String) (id : String) :
    ∀ (l : List Node) (acc : PhysicsState × Bool), (alGet acc.1 id).isSome →
    (alGet (l.foldl (stepOneNode rsqrt c fc dt nodesAll dragging) acc).1 id).isSome
  | [], _, h => h
  | n :: rest, acc, h => by
      rw [List.foldl_cons]
      exact foldStep_isSome_mono rsqrt c fc dt nodesAll dragging id rest _
        (stepOne_isSome_mono rsqrt c fc dt nodesAll dragging acc n id h)

theorem foldStep_target_map (rsqrt : ℚ → ℚ) (c : PhysicsConstraints)
    (fc : List (String × Position)) (dt : ℚ) (nodesAll : List Node)
    (dragging : List String) (id : String) :
    ∀ (l : List Node) (acc : PhysicsState × Bool),
    (alGet (l.foldl (stepOneNode rsqrt c fc dt nodesAll dragging) acc).1 id).map
        PhysicsNodeState.target =
      (alGet acc.1 id).map PhysicsNodeState.target
  | [], _ => rfl
  | n :: rest, acc => by
      rw [List.foldl_cons,
        foldStep_target_map rsqrt c fc dt nodesAll dragging id rest _,
        stepOne_target_map rsqrt c fc dt nodesAll dragging acc n id]

theorem stepPhysics_disabled_eq (rsqrt : ℚ → ℚ) (state : PhysicsState)
    (nodes : List Node) (c : PhysicsConstraints) (deltaMs : ℚ)
    (draggingIds : List String) (frames : List Frame)
    (hne : nodes ≠ []) (hen : c.enablePhysics = false) :
    stepPhysics rsqrt state nodes c deltaMs draggingIds frames =
      ((ensureAll c.gridSnap state nodes).map
        (fun p => (p.1, freezeEntry c.gridSnap p.2)), false) := by
  unfold stepPhysics
  rw [if_neg hne]
  dsimp only
  rw [if_pos hen]

theorem stepPhysics_enabled_eq (rsqrt : ℚ → ℚ) (state : PhysicsState)
    (nodes : List Node) (c : PhysicsConstraints) (deltaMs : ℚ)
    (draggingIds : List String) (frames : List Frame)
    (hne : nodes ≠ []) (hen : c.enablePhysics = true) :
    stepPhysics rsqrt state nodes c deltaMs draggingIds frames =
      nodes.foldl
        (stepOneNode rsqrt c (frameCentersOf frames) (clamp deltaMs 0 48 / 16.666)
          nodes draggingIds)
        (snapTargetsForNodes c.gridSnap (ensureAll c.gridSnap state nodes) nodes,
         false) := by
  unfold stepPhysics
  rw [if_neg hne]
  dsimp only
  rw [if_neg (by simp [hen])]

/-! ### Claim theorems -/

/-- C2 (code bug evidence): on the cycle-free diamond `P -> A`, `Q -> A`,
`A -> B` the flow-grid layering assigns `layer(A) = 1` by relaxation, but the
`existingLayer >= current.layer` guard then drops `A`'s queued item, so `B`
is never visited and falls back to layer 0, violating
`layer(B) >= layer(A) + 1`. -/
theorem flowGrid_diamond_layer_violation :
    (computeLayout 20 .flowGrid
        [testNode "P", testNode "Q", testNode "A", testNode "B"]
        [causalEdge "P" "A", causalEdge "Q" "A", causalEdge "A" "B"]
        DEFAULT_LAYOUT_OPTIONS).map
      (fun r => (alGet r.layers "A", alGet r.layers "B")) =
    some (some 1, some 0) := by
  decide

/-- C3 (counterexample): a directional edge `X -> B` whose source id `X` is
unknown still increments `B`'s indegree, so `B` is relaxed instead of
dequeued and its successor `D` keeps fallback layer 0: removing the edge
moves `D` from column 0 to column 2. -/
theorem computeLayout_unknown_source_edge_changes_result :
    (computeLayout 20 .flowGrid [testNode "C", testNode "B", testNode "D"]
        [causalEdge "C" "B", causalEdge "B" "D", causalEdge "X" "B"]
        DEFAULT_LAYOUT_OPTIONS).map (fun r => alGet r.positions "D") ≠
    (computeLayout 20 .flowGrid [testNode "C", testNode "B", testNode "D"]
        [causalEdge "C" "B", causalEdge "B" "D"]
        DEFAULT_LAYOUT_OPTIONS).map (fun r => alGet r.positions "D") := by
  decide

/-- C4 (counterexample): dragging node `n1` with its target pinned to the
off-grid point `P = (3, 3)` does not keep the simulated position at `P`:
`stepPhysics` re-snaps the target and forces the position to
`snapPosition P = (0, 0)`. -/
theorem stepPhysics_drag_offgrid_not_pinned :
    (alGet (stepPhysics sqrtUB [("n1", ⟨⟨3, 3⟩, ⟨0, 0⟩, ⟨3, 3⟩⟩)]
        [testNode "n1"] cTactile 16 ["n1"] []).1 "n1").map
      PhysicsNodeState.position ≠ some ⟨3, 3⟩ := by
  decide

/-- C5 (counterexample): `stepPhysics` never removes entries: an entry whose
id `ghost` is not among the passed nodes is still present after the call. -/
theorem stepPhysics_stale_entry_persists :
    ("ghost" ∉ [testNode "n1"].map Node.id) ∧
    (alGet (stepPhysics sqrtUB [("ghost", ⟨⟨0, 0⟩, ⟨0, 0⟩, ⟨0, 0⟩⟩)]
        [testNode "n1"] cTactile 16 ["n1"] []).1 "ghost").isSome = true := by
  decide

/-- C6 (counterexample): with physics disabled and an off-grid target
`(3, 3)` at grid 8, two consecutive `stepPhysics` calls leave the position at
the snapped target `(0, 0)`, which differs from the target itself — the
claimed `position == target exactly` fails. -/
theorem stepPhysics_freeze_position_ne_target :
    ∃ e, alGet (stepPhysics sqrtUB
        (stepPhysics sqrtUB [("a", ⟨⟨1, 1⟩, ⟨2, 2⟩, ⟨3, 3⟩⟩)]
          [testNode "a"] cStatic 16 [] []).1
        [testNode "a"] cStatic 16 [] []).1 "a" = some e ∧
      e.position ≠ e.target :=
  ⟨⟨⟨0, 0⟩, ⟨0, 0⟩, ⟨3, 3⟩⟩, by decide, by decide⟩

/-- C7: `syncPhysicsTargets` changes only the target of an existing entry
(to the snapped incoming value), creates fresh entries with position and
target both at the snapped value and zero velocity, and leaves ids outside
the incoming map untouched. -/
theorem syncPhysicsTargets_frame_conditions (state : PhysicsState)
    (layout : List (String × Position)) (g : ℚ)
    (hkeys : (layout.map Prod.fst).Nodup) :
    (∀ id p e, alGet layout id = some p → alGet state id = some e →
      alGet (syncPhysicsTargets state layout g) id =
        some ⟨e.position, e.velocity, snapPosition p g⟩) ∧
    (∀ id p, alGet layout id = some p → alGet state id = none →
      alGet (syncPhysicsTargets state layout g) id =
        some ⟨snapPosition p g, createZeroVector, snapPosition p g⟩) ∧
    (∀ id, alGet layout id = none →
      alGet (syncPhysicsTargets state layout g) id = alGet state id) :=
  ⟨fun id p e hl hs => syncTargets_get_existing g id layout state p e hkeys hl hs,
   fun id p hl hs => syncTargets_get_new g id layout state p hkeys hl hs,
   fun id hl => syncTargets_get_absent g id layout state hl⟩

/-- Witness for C7 on the concrete fixtures: the existing entry `a` keeps its
position and velocity and re-aims at the snapped `(3,3) = (0,0)`; the fresh
id `b` starts with position and target both `(8,8)`; `c` is untouched. -/
theorem syncPhysicsTargets_frame_conditions_witness :
    alGet (syncPhysicsTargets demoState demoLayout 8) "a" =
      some ⟨⟨1, 1⟩, ⟨2, 2⟩, ⟨0, 0⟩⟩ ∧
    alGet (syncPhysicsTargets demoState demoLayout 8) "b" =
      some ⟨⟨8, 8⟩, ⟨0, 0⟩, ⟨8, 8⟩⟩ ∧
    alGet (syncPhysicsTargets demoState demoLayout 8) "c" = alGet demoState "c" :=
  ⟨((syncPhysicsTargets_frame_conditions demoState demoLayout 8 (by decide)).1
      "a" ⟨3, 3⟩ ⟨⟨1, 1⟩, ⟨2, 2⟩, ⟨9, 9⟩⟩ (by decide) (by decide)).trans (by decide),
   ((syncPhysicsTargets_frame_conditions demoState demoLayout 8 (by decide)).2.1
      "b" ⟨5, 5⟩ (by decide) (by decide)).trans (by decide),
   (syncPhysicsTargets_frame_conditions demoState demoLayout 8 (by decide)).2.2
      "c" (by decide)⟩

/-- Processing of a dragged or locked id through the main loop: one pass over
nodes containing the id pins its entry to the snapped target. -/
theorem foldStep_drag (rsqrt : ℚ → ℚ) (c : PhysicsConstraints)
    (fc : List (String × Position)) (dt : ℚ) (nodesAll : List Node)
    (dragging : List String) (tid : String) (T : Position)
    (htid : tid ∈ dragging) :
    ∀ (l : List Node) (acc : PhysicsState × Bool) (e0 : PhysicsNodeState),
    alGet acc.1 tid = some e0 → e0.target = T → (∃ n, n ∈ l ∧ n.id = tid) →
    alGet (l.foldl (stepOneNode rsqrt c fc dt nodesAll dragging) acc).1 tid =
      some ⟨snapPosition T c.gridSnap, createZeroVector, T⟩
  | [], _, _, _, _, hw => absurd hw.choose_spec.1 (List.not_mem_nil _)
  | m :: rest, acc, e0, hget, htgt, hw => by
      rw [List.foldl_cons]
      by_cases hm : m.id = tid
      · have hheld : m.locked = true ∨ m.id ∈ dragging := Or.inr (hm ▸ htid)
        have hstep := stepOne_some_held rsqrt c fc dt nodesAll dragging acc m e0
          (hm ▸ hget) hheld
        rw [hstep]
        by_cases hr : ∃ n, n ∈ rest ∧ n.id = tid
        · refine foldStep_drag rsqrt c fc dt nodesAll dragging tid T htid rest _
            ⟨snapPosition e0.target c.gridSnap, createZeroVector, e0.target⟩ ?_ htgt hr
          rw [← hm, alGet_alSet_self]
        · have hnm : tid ∉ rest.map Node.id := by
            intro hmem
            rcases List.mem_map.mp hmem with ⟨n, hn, hne⟩
            exact hr ⟨n, hn, hne⟩
          rw [foldStep_get_notmem rsqrt c fc dt nodesAll dragging tid rest _ hnm]
          dsimp only
          rw [← hm, alGet_alSet_self, htgt]
      · have hw2 : ∃ n, n ∈ rest ∧ n.id = tid := by
          rcases hw with ⟨n, hn, hne⟩
          rcases List.mem_cons.mp hn with h | h
          · exact absurd (h ▸ hne) hm
          · exact ⟨n, h, hne⟩
        refine foldStep_drag rsqrt c fc dt nodesAll dragging tid T htid rest _ e0 ?_ htgt hw2
        rw [stepOne_get_ne rsqrt c fc dt nodesAll dragging acc m tid hm]
        exact hget

/-- C4 (amended): while node `N` is in `draggingIds` with its entry's target
pinned to the drag point `P`, `stepPhysics` forces `N`'s position and target
to `snapPosition P gridSnap` with zero velocity — equal to `P` itself only
when `P` lies on the grid. -/
theorem stepPhysics_drag_snaps_target (rsqrt : ℚ → ℚ) (state : PhysicsState)
    (nodes : List Node) (c : PhysicsConstraints) (deltaMs : ℚ)
    (draggingIds : List String) (frames : List Frame) (P : Position)
    (node : Node) (e0 : PhysicsNodeState)
    (hen : c.enablePhysics = true) (hmem : node ∈ nodes)
    (hdrag : node.id ∈ draggingIds) (hst : alGet state node.id = some e0)
    (htgt : e0.target = P) :
    alGet (stepPhysics rsqrt state nodes c deltaMs draggingIds frames).1 node.id =
      some ⟨snapPosition P c.gridSnap, createZeroVector, snapPosition P c.gridSnap⟩ := by
  have hne : nodes ≠ [] := fun h => by simp [h] at hmem
  rw [stepPhysics_enabled_eq rsqrt state nodes c deltaMs draggingIds frames hne hen]
  have h1 : alGet (ensureAll c.gridSnap state nodes) node.id = some e0 :=
    ensureAll_get_of_some c.gridSnap node.id e0 nodes state hst
  have h2 : alGet (snapTargetsForNodes c.gridSnap (ensureAll c.gridSnap state nodes)
      nodes) node.id = some ⟨e0.position, e0.velocity, snapPosition e0.target c.gridSnap⟩ :=
    snapTargets_get_of_some_mem c.gridSnap node.id nodes _ e0 h1
      (List.mem_map.mpr ⟨node, hmem, rfl⟩)
  have := foldStep_drag rsqrt c (frameCentersOf frames) (clamp deltaMs 0 48 / 16.666)
    nodes draggingIds node.id (snapPosition P c.gridSnap) hdrag nodes
    (snapTargetsForNodes c.gridSnap (ensureAll c.gridSnap state nodes) nodes, false)
    ⟨e0.position, e0.velocity, snapPosition e0.target c.gridSnap⟩
    h2 (by rw [htgt]) ⟨node, hmem, rfl⟩
  rw [this, snapPosition_idem]

/-- Witness for C4 (amended) at the concrete drag of `n1` to `P = (3, 3)`
with grid 8: the entry ends at `((0,0), (0,0), (0,0))`. -/
theorem stepPhysics_drag_snaps_target_witness :
    alGet (stepPhysics sqrtUB [("n1", ⟨⟨3, 3⟩, ⟨0, 0⟩, ⟨3, 3⟩⟩)]
        [testNode "n1"] cTactile 16 ["n1"] []).1 (testNode "n1").id =
      some ⟨snapPosition ⟨3, 3⟩ cTactile.gridSnap, createZeroVector,
        snapPosition ⟨3, 3⟩ cTactile.gridSnap⟩ :=
  stepPhysics_drag_snaps_target sqrtUB _ _ cTactile 16 ["n1"] [] ⟨3, 3⟩
    (testNode "n1") ⟨⟨3, 3⟩, ⟨0, 0⟩, ⟨3, 3⟩⟩ rfl (by decide) (by decide)
    (by decide) rfl

/-- C5 (amended): `stepPhysics` never removes entries — every id present in
the state before the call still has an entry afterwards (stale ids persist),
and every passed node id has an entry afterwards. -/
theorem stepPhysics_entry_superset (rsqrt : ℚ → ℚ) (state : PhysicsState)
    (nodes : List Node) (c : PhysicsConstraints) (deltaMs : ℚ)
    (draggingIds : List String) (frames : List Frame) :
    (∀ id, (alGet state id).isSome →
      (alGet (stepPhysics rsqrt state nodes c deltaMs draggingIds frames).1 id).isSome) ∧
    (∀ n ∈ nodes,
      (alGet (stepPhysics rsqrt state nodes c deltaMs draggingIds frames).1 n.id).isSome) := by
  by_cases hne : nodes = []
  · subst hne
    constructor
    · intro id h
      simpa [stepPhysics] using h
    · intro n hn
      exact absurd hn (List.not_mem_nil _)
  · rcases hen : c.enablePhysics with _ | _
    · rw [stepPhysics_disabled_eq rsqrt state nodes c deltaMs draggingIds frames hne hen]
      constructor
      · intro id h
        dsimp only
        rw [alGet_map]
        simpa using ensureAll_isSome_mono c.gridSnap id nodes state h
      · intro n hn
        dsimp only
        rw [alGet_map]
        simpa using ensureAll_isSome_of_mem c.gridSnap nodes state n hn
    · rw [stepPhysics_enabled_eq rsqrt state nodes c deltaMs draggingIds frames hne hen]
      constructor
      · intro id h
        exact foldStep_isSome_mono rsqrt c (frameCentersOf frames) _ nodes draggingIds
          id nodes _ (snapTargets_isSome_mono c.gridSnap id nodes _
            (ensureAll_isSome_mono c.gridSnap id nodes state h))
      · intro n hn
        exact foldStep_isSome_mono rsqrt c (frameCentersOf frames) _ nodes draggingIds
          n.id nodes _ (snapTargets_isSome_mono c.gridSnap n.id nodes _
            (ensureAll_isSome_of_mem c.gridSnap nodes state n hn))

/-- Witness for C5 (amended): the stale `ghost` entry survives the call and
the passed node `n1` has an entry. -/
theorem stepPhysics_entry_superset_witness :
    (alGet (stepPhysics sqrtUB [("ghost", ⟨⟨0, 0⟩, ⟨0, 0⟩, ⟨0, 0⟩⟩)]
        [testNode "n1"] cTactile 16 ["n1"] []).1 "ghost").isSome ∧
    (alGet (stepPhysics sqrtUB [("ghost", ⟨⟨0, 0⟩, ⟨0, 0⟩, ⟨0, 0⟩⟩)]
        [testNode "n1"] cTactile 16 ["n1"] []).1 (testNode "n1").id).isSome :=
  ⟨(stepPhysics_entry_superset sqrtUB _ _ cTactile 16 ["n1"] []).1 "ghost" (by decide),
   (stepPhysics_entry_superset sqrtUB _ _ cTactile 16 ["n1"] []).2 (testNode "n1")
     (by decide)⟩

/-- C6 (amended): a disabled step reports no movement and snaps every entry's
position onto its grid-snapped target with zero velocity, leaving the target
itself untouched (so `position = target` exactly only for on-grid targets),
and a second disabled step is an exact no-op on the state. -/
theorem stepPhysics_freeze_idempotent (rsqrt rsqrt2 : ℚ → ℚ)
    (state : PhysicsState) (nodes : List Node) (c : PhysicsConstraints)
    (deltaMs deltaMs2 : ℚ) (draggingIds draggingIds2 : List String)
    (frames frames2 : List Frame)
    (hne : nodes ≠ []) (hen : c.enablePhysics = false) :
    (stepPhysics rsqrt state nodes c deltaMs draggingIds frames).2 = false ∧
    (∀ id e,
      alGet (stepPhysics rsqrt state nodes c deltaMs draggingIds frames).1 id = some e →
      e.position = snapPosition e.target c.gridSnap ∧ e.velocity = createZeroVector) ∧
    stepPhysics rsqrt2 (stepPhysics rsqrt state nodes c deltaMs draggingIds frames).1
        nodes c deltaMs2 draggingIds2 frames2 =
      ((stepPhysics rsqrt state nodes c deltaMs draggingIds frames).1, false) := by
  rw [stepPhysics_disabled_eq rsqrt state nodes c deltaMs draggingIds frames hne hen]
  refine ⟨rfl, ?_, ?_⟩
  · intro id e h
    dsimp only at h
    rw [alGet_map] at h
    rcases Option.map_eq_some'.mp h with ⟨e0, _, hfe⟩
    rw [← hfe]
    exact ⟨rfl, rfl⟩
  · rw [stepPhysics_disabled_eq rsqrt2 _ nodes c deltaMs2 draggingIds2 frames2 hne hen]
    dsimp only
    have hsome : ∀ n ∈ nodes,
        (alGet ((ensureAll c.gridSnap state nodes).map
          (fun p => (p.1, freezeEntry c.gridSnap p.2))) n.id).isSome := by
      intro n hn
      rw [alGet_map]
      simpa using ensureAll_isSome_of_mem c.gridSnap nodes state n hn
    rw [ensureAll_eq_of_all_isSome c.gridSnap nodes _ hsome]
    rw [List.map_map]
    refine congrArg₂ Prod.mk (List.map_congr_left ?_) rfl
    intro p _
    rfl

/-- Witness for C6 (amended) on a one-node state with off-grid target
`(3, 3)`: the first frozen step reports `false` and places the position at
`(0, 0) = snap (3, 3)`; the second step changes nothing. -/
theorem stepPhysics_freeze_idempotent_witness :
    (stepPhysics sqrtUB [("a", ⟨⟨1, 1⟩, ⟨2, 2⟩, ⟨3, 3⟩⟩)] [testNode "a"]
        cStatic 16 [] []).2 = false ∧
    (∀ id e,
      alGet (stepPhysics sqrtUB [("a", ⟨⟨1, 1⟩, ⟨2, 2⟩, ⟨3, 3⟩⟩)] [testNode "a"]
        cStatic 16 [] []).1 id = some e →
      e.position = snapPosition e.target cStatic.gridSnap ∧
        e.velocity = createZeroVector) ∧
    stepPhysics sqrtUB
        (stepPhysics sqrtUB [("a", ⟨⟨1, 1⟩, ⟨2, 2⟩, ⟨3, 3⟩⟩)] [testNode "a"]
          cStatic 16 [] []).1 [testNode "a"] cStatic 16 [] [] =
      ((stepPhysics sqrtUB [("a", ⟨⟨1, 1⟩, ⟨2, 2⟩, ⟨3, 3⟩⟩)] [testNode "a"]
          cStatic 16 [] []).1, false) :=
  stepPhysics_freeze_idempotent sqrtUB sqrtUB
    [("a", ⟨⟨1, 1⟩, ⟨2, 2⟩, ⟨3, 3⟩⟩)] [testNode "a"] cStatic 16 16 [] [] [] []
    (by decide) rfl

/-- Core clamp arithmetic: rescaling the offset by `M / dd` with
`|offset|^2 <= dd^2` lands inside the circle of radius `M`. -/
theorem clampArith (M dd ox oy : ℚ) (hM : 0 ≤ M) (hdne : dd ≠ 0)
    (hSd : ox * ox + oy * oy ≤ dd * dd) :
    (ox * (M / dd)) * (ox * (M / dd)) + (oy * (M / dd)) * (oy * (M / dd)) ≤
      M * M := by
  have h1 : (ox * (M / dd)) * (ox * (M / dd)) + (oy * (M / dd)) * (oy * (M / dd)) =
      (ox * ox + oy * oy) * ((M / dd) * (M / dd)) := by ring
  rw [h1]
  calc (ox * ox + oy * oy) * ((M / dd) * (M / dd))
      ≤ (dd * dd) * ((M / dd) * (M / dd)) :=
        mul_le_mul_of_nonneg_right hSd (mul_self_nonneg _)
    _ = (M / dd * dd) * (M / dd * dd) := by ring
    _ = M * M := by rw [div_mul_cancel₀ M hdne]

/-- After the clamp/settle tail, the entry is within `maxOffset` of its
target (in squared form), provided the square-root model over-approximates
and the target is a grid fixed point. -/
theorem clampSettle_bound (rsqrt : ℚ → ℚ) (c : PhysicsConstraints)
    (target pos vel : Position)
    (hrs : ∀ x : ℚ, 0 ≤ x → 0 ≤ rsqrt x ∧ x ≤ rsqrt x * rsqrt x)
    (hM : 0 ≤ c.maxOffset)
    (ht : snapPosition target c.gridSnap = target) :
    distanceSquared (clampSettle rsqrt c target pos vel).1.position
      (clampSettle rsqrt c target pos vel).1.target ≤
      c.maxOffset * c.maxOffset := by
  have hS0 : 0 ≤ (pos.x - target.x) * (pos.x - target.x) +
      (pos.y - target.y) * (pos.y - target.y) :=
    add_nonneg (mul_self_nonneg _) (mul_self_nonneg _)
  obtain ⟨hd0, hSd⟩ := hrs _ hS0
  have hMM : (0 : ℚ) ≤ c.maxOffset * c.maxOffset := mul_self_nonneg _
  unfold clampSettle
  dsimp only
  set dd := rsqrt ((pos.x - target.x) * (pos.x - target.x) +
      (pos.y - target.y) * (pos.y - target.y)) with hdd
  by_cases hc : c.maxOffset < dd
  · have hdne : dd ≠ 0 := ne_of_gt (lt_of_le_of_lt hM hc)
    rw [if_pos hc]
    simp only [if_neg hdne]
    split
    · simpa [distanceSquared, ht] using hMM
    · dsimp only
      have heq : distanceSquared
          ⟨target.x + (pos.x - target.x) * (c.maxOffset / dd),
           target.y + (pos.y - target.y) * (c.maxOffset / dd)⟩ target =
          ((pos.x - target.x) * (c.maxOffset / dd)) *
            ((pos.x - target.x) * (c.maxOffset / dd)) +
          ((pos.y - target.y) * (c.maxOffset / dd)) *
            ((pos.y - target.y) * (c.maxOffset / dd)) := by
        simp only [distanceSquared]
        ring
      rw [heq]
      exact clampArith c.maxOffset dd _ _ hM hdne hSd
  · rw [if_neg hc]
    split
    · simpa [distanceSquared, ht] using hMM
    · dsimp only
      have hdM : dd ≤ c.maxOffset := le_of_not_lt hc
      calc distanceSquared pos target
          = (pos.x - target.x) * (pos.x - target.x) +
            (pos.y - target.y) * (pos.y - target.y) := rfl
        _ ≤ dd * dd := hSd
        _ ≤ c.maxOffset * c.maxOffset := mul_self_le_mul_self hd0 hdM

theorem stepFreeEntry_bound (rsqrt : ℚ → ℚ) (c : PhysicsConstraints)
    (fc : List (String × Position)) (dt : ℚ) (nodes : List Node)
    (s : PhysicsState) (node : Node) (physics : PhysicsNodeState)
    (hrs : ∀ x : ℚ, 0 ≤ x → 0 ≤ rsqrt x ∧ x ≤ rsqrt x * rsqrt x)
    (hM : 0 ≤ c.maxOffset)
    (htgt : snapPosition physics.target c.gridSnap = physics.target) :
    distanceSquared (stepFreeEntry rsqrt c fc dt nodes s node physics).1.position
      (stepFreeEntry rsqrt c fc dt nodes s node physics).1.target ≤
      c.maxOffset * c.maxOffset := by
  unfold stepFreeEntry
  dsimp only
  exact clampSettle_bound rsqrt c physics.target _ _ hrs hM htgt

/-- Invariant propagation through the main loop: once every remaining node
has an entry with a grid-fixed target, every processed node ends within the
offset bound. -/
theorem foldStep_bound (rsqrt : ℚ → ℚ) (c : PhysicsConstraints)
    (fc : List (String × Position)) (dt : ℚ) (nodesAll : List Node)
    (dragging : List String)
    (hrs : ∀ x : ℚ, 0 ≤ x → 0 ≤ rsqrt x ∧ x ≤ rsqrt x * rsqrt x)
    (hM : 0 ≤ c.maxOffset) :
    ∀ (l : List Node) (acc : PhysicsState × Bool),
    (∀ n ∈ l, ∃ e, alGet acc.1 n.id = some e ∧
      snapPosition e.target c.gridSnap = e.target) →
    ∀ n ∈ l, ∃ e,
      alGet (l.foldl (stepOneNode rsqrt c fc dt nodesAll dragging) acc).1 n.id =
        some e ∧
      distanceSquared e.position e.target ≤ c.maxOffset * c.maxOffset
  | [], _, _, n, hn => absurd hn (List.not_mem_nil _)
  | m :: rest, acc, hinv, n, hn => by
      obtain ⟨p, hp, hsnap⟩ := hinv m (List.mem_cons_self m rest)
      have hstepm : ∃ e1,
          alGet (stepOneNode rsqrt c fc dt nodesAll dragging acc m).1 m.id = some e1 ∧
          distanceSquared e1.position e1.target ≤ c.maxOffset * c.maxOffset ∧
          snapPosition e1.target c.gridSnap = e1.target := by
        by_cases hl : m.locked = true ∨ m.id ∈ dragging
        · rw [stepOne_some_held rsqrt c fc dt nodesAll dragging acc m p hp hl]
          refine ⟨_, alGet_alSet_self _ _ _, ?_, hsnap⟩
          dsimp only
          rw [hsnap]
          simpa [distanceSquared] using mul_self_nonneg c.maxOffset
        · rw [stepOne_some_free rsqrt c fc dt nodesAll dragging acc m p hp hl]
          refine ⟨_, alGet_alSet_self _ _ _, ?_, ?_⟩
          · exact stepFreeEntry_bound rsqrt c fc dt nodesAll acc.1 m p hrs hM hsnap
          · rw [stepFreeEntry_target]
            exact hsnap
      obtain ⟨e1, he1, hbnd1, hsnap1⟩ := hstepm
      have hinv2 : ∀ n2 ∈ rest,
          ∃ e, alGet (stepOneNode rsqrt c fc dt nodesAll dragging acc m).1 n2.id =
            some e ∧ snapPosition e.target c.gridSnap = e.target := by
        intro n2 hn2
        by_cases hid : m.id = n2.id
        · exact ⟨e1, hid ▸ he1, hsnap1⟩
        · rw [stepOne_get_ne rsqrt c fc dt nodesAll dragging acc m n2.id hid]
          exact hinv n2 (List.mem_cons_of_mem m hn2)
      rw [List.foldl_cons]
      rcases List.mem_cons.mp hn with hn | hn
      · by_cases hmr : n.id ∈ rest.map Node.id
        · rcases List.mem_map.mp hmr with ⟨n2, hn2, hne⟩
          obtain ⟨e, he, hbe⟩ := foldStep_bound rsqrt c fc dt nodesAll dragging
            hrs hM rest _ hinv2 n2 hn2
          refine ⟨e, ?_, hbe⟩
          rw [← hne]
          exact he
        · rw [foldStep_get_notmem rsqrt c fc dt nodesAll dragging n.id rest _ hmr]
          refine ⟨e1, ?_, hbnd1⟩
          rw [hn]
          exact he1
      · exact foldStep_bound rsqrt c fc dt nodesAll dragging hrs hM rest _ hinv2 n hn

/-- The fixture square-root over-approximation satisfies the bound spec. -/
theorem sqrtUB_spec : ∀ x : ℚ, 0 ≤ x → 0 ≤ sqrtUB x ∧ x ≤ sqrtUB x * sqrtUB x := by
  intro x hx
  unfold sqrtUB
  split
  · refine ⟨zero_le_one, ?_⟩
    rw [mul_one]
    assumption
  · have h1 : 1 ≤ x := le_of_lt (lt_of_not_le (by assumption))
    exact ⟨hx, le_mul_of_one_le_left hx h1⟩

/-- C1: with physics enabled and a nonnegative `maxOffset`, after any
`stepPhysics` call every passed node that is neither locked nor dragged has
its entry within `maxOffset` of its target: in squared form,
`distanceSquared position target ≤ maxOffset²` exactly (the claim's ε is not
even needed in exact arithmetic). `rsqrt` may be any model of `Math.sqrt`
that is nonnegative and over-approximates on nonnegative inputs. -/
theorem stepPhysics_bounded_offset (rsqrt : ℚ → ℚ) (state : PhysicsState)
    (nodes : List Node) (c : PhysicsConstraints) (deltaMs : ℚ)
    (draggingIds : List String) (frames : List Frame)
    (hrs : ∀ x : ℚ, 0 ≤ x → 0 ≤ rsqrt x ∧ x ≤ rsqrt x * rsqrt x)
    (hM : 0 ≤ c.maxOffset) (hen : c.enablePhysics = true)
    (node : Node) (hmem : node ∈ nodes) (hlock : node.locked = false)
    (hdrag : node.id ∉ draggingIds) :
    ∃ e, alGet (stepPhysics rsqrt state nodes c deltaMs draggingIds frames).1
        node.id = some e ∧
      distanceSquared e.position e.target ≤ c.maxOffset * c.maxOffset := by
  have hne : nodes ≠ [] := fun h => by simp [h] at hmem
  rw [stepPhysics_enabled_eq rsqrt state nodes c deltaMs draggingIds frames hne hen]
  refine foldStep_bound rsqrt c (frameCentersOf frames) (clamp deltaMs 0 48 / 16.666)
    nodes draggingIds hrs hM nodes
    (snapTargetsForNodes c.gridSnap (ensureAll c.gridSnap state nodes) nodes, false)
    ?_ node hmem
  intro n hn
  obtain ⟨e1, he1⟩ := Option.isSome_iff_exists.mp
    (ensureAll_isSome_of_mem c.gridSnap nodes state n hn)
  refine ⟨⟨e1.position, e1.velocity, snapPosition e1.target c.gridSnap⟩, ?_, ?_⟩
  · exact snapTargets_get_of_some_mem c.gridSnap n.id nodes _ e1 he1
      (List.mem_map.mpr ⟨n, hn, rfl⟩)
  · exact snapPosition_idem e1.target c.gridSnap

/-- Witness for C1: a single free node pulled toward its target under the
`tactile` preset ends within `32²` of it. -/
theorem stepPhysics_bounded_offset_witness :
    0 ≤ cTactile.maxOffset ∧
    ∃ e, alGet (stepPhysics sqrtUB [("n1", ⟨⟨100, 0⟩, ⟨0, 0⟩, ⟨0, 0⟩⟩)]
        [testNode "n1"] cTactile 16 [] []).1 (testNode "n1").id = some e ∧
      distanceSquared e.position e.target ≤ cTactile.maxOffset * cTactile.maxOffset :=
  ⟨by decide,
   stepPhysics_bounded_offset sqrtUB [("n1", ⟨⟨100, 0⟩, ⟨0, 0⟩, ⟨0, 0⟩⟩)]
     [testNode "n1"] cTactile 16 [] [] sqrtUB_spec (by decide) rfl
     (testNode "n1") (by decide) rfl (by decide)⟩

/-! ### Generic lemmas for the layout folds -/

theorem alGet_alSet_isSome_iff {κ α : Type _} [DecidableEq κ]
    (m : List (κ × α)) (k k' : κ) (v : α) :
    (alGet (alSet m k v) k').isSome ↔ ((alGet m k').isSome ∨ k' = k) := by
  by_cases hk : k' = k
  · subst hk
    simp [alGet_alSet_self]
  · rw [alGet_alSet_ne m k k' v (fun h => hk h.symm)]
    simp [hk]

theorem alSet_snoc_join_perm {κ β : Type _} [DecidableEq κ] (x : β) :
    ∀ (m : List (κ × List β)) (k : κ),
    ((alSet m k ((alGet m k).getD [] ++ [x])).map Prod.snd).flatten.Perm
      ((m.map Prod.snd).flatten ++ [x])
  | [], k => by simp [alGet, alSet]
  | (k0, v0) :: rest, k => by
      by_cases h0 : k0 = k
      · subst h0
        have hg : alGet ((k0, v0) :: rest) k0 = some v0 := by simp [alGet]
        have hs : alSet ((k0, v0) :: rest) k0 (v0 ++ [x]) = (k0, v0 ++ [x]) :: rest := by
          simp [alSet]
        rw [hg, Option.getD_some, hs]
        simp only [List.map_cons, List.flatten_cons]
        have h1 : v0 ++ [x] ++ (rest.map Prod.snd).flatten =
            v0 ++ ([x] ++ (rest.map Prod.snd).flatten) := by
          rw [List.append_assoc]
        have h2 : v0 ++ (rest.map Prod.snd).flatten ++ [x] =
            v0 ++ ((rest.map Prod.snd).flatten ++ [x]) := by
          rw [List.append_assoc]
        rw [h1, h2]
        exact List.Perm.append_left v0 List.perm_append_comm
      · have hg : alGet ((k0, v0) :: rest) k = alGet rest k := by simp [alGet, h0]
        have hs : alSet ((k0, v0) :: rest) k ((alGet rest k).getD [] ++ [x]) =
            (k0, v0) :: alSet rest k ((alGet rest k).getD [] ++ [x]) := by
          simp [alSet, h0]
        rw [hg, hs]
        simp only [List.map_cons, List.flatten_cons]
        have h2 : v0 ++ (rest.map Prod.snd).flatten ++ [x] =
            v0 ++ ((rest.map Prod.snd).flatten ++ [x]) := by
          rw [List.append_assoc]
        rw [h2]
        exact List.Perm.append_left v0 (alSet_snoc_join_perm x rest k)

theorem bucketAdd_get_self {κ : Type _} [DecidableEq κ]
    (m : List (κ × List Node)) (k : κ) (n : Node) :
    alGet (bucketAdd m k n) k = some ((alGet m k).getD [] ++ [n]) := by
  unfold bucketAdd
  rcases h : alGet m k with _ | ns
  · rw [alGet_alSet_self]
    rfl
  · rw [alGet_alSet_self]
    rfl

theorem bucketAdd_get_ne {κ : Type _} [DecidableEq κ]
    (m : List (κ × List Node)) (k k' : κ) (n : Node) (h : k ≠ k') :
    alGet (bucketAdd m k n) k' = alGet m k' := by
  unfold bucketAdd
  rcases h0 : alGet m k with _ | ns
  · exact alGet_alSet_ne _ _ _ _ h
  · exact alGet_alSet_ne _ _ _ _ h

theorem bucketAdd_eq_alSet_snoc {κ : Type _} [DecidableEq κ]
    (m : List (κ × List Node)) (k : κ) (n : Node) :
    bucketAdd m k n = alSet m k ((alGet m k).getD [] ++ [n]) := by
  unfold bucketAdd
  rcases h : alGet m k with _ | ns
  · rfl
  · rfl

theorem bucketAdd_join_perm {κ : Type _} [DecidableEq κ]
    (m : List (κ × List Node)) (k : κ) (n : Node) :
    ((bucketAdd m k n).map Prod.snd).flatten.Perm ((m.map Prod.snd).flatten ++ [n]) := by
  rw [bucketAdd_eq_alSet_snoc]
  exact alSet_snoc_join_perm n m k

theorem bucketAdd_keys_nodup {κ : Type _} [DecidableEq κ]
    (m : List (κ × List Node)) (k : κ) (n : Node)
    (h : (m.map Prod.fst).Nodup) : ((bucketAdd m k n).map Prod.fst).Nodup := by
  rw [bucketAdd_eq_alSet_snoc]
  exact alSet_keys_nodup m k _ h

theorem groupFold_join_perm {κ : Type _} [DecidableEq κ]
    (P : Node → Bool) (key : Node → κ) :
    ∀ (l : List Node) (acc : List (κ × List Node)),
    ((groupFold P key l acc).map Prod.snd).flatten.Perm
      ((acc.map Prod.snd).flatten ++ l.filter P)
  | [], acc => by simp [groupFold]
  | n :: rest, acc => by
      have hstep : groupFold P key (n :: rest) acc =
          groupFold P key rest (if P n = true then bucketAdd acc (key n) n else acc) := rfl
      rw [hstep]
      by_cases hp : P n = true
      · rw [if_pos hp, List.filter_cons_of_pos hp]
        have ih := groupFold_join_perm P key rest (bucketAdd acc (key n) n)
        have hb := (bucketAdd_join_perm acc (key n) n).append_right (rest.filter P)
        refine ih.trans (hb.trans ?_)
        have h1 : (acc.map Prod.snd).flatten ++ [n] ++ rest.filter P =
            (acc.map Prod.snd).flatten ++ ([n] ++ rest.filter P) := by
          rw [List.append_assoc]
        rw [h1]
        exact List.Perm.refl _
      · rw [if_neg hp, List.filter_cons_of_neg (by simpa using hp)]
        exact groupFold_join_perm P key rest acc

theorem groupFold_keys_nodup {κ : Type _} [DecidableEq κ]
    (P : Node → Bool) (key : Node → κ) :
    ∀ (l : List Node) (acc : List (κ × List Node)),
    (acc.map Prod.fst).Nodup → ((groupFold P key l acc).map Prod.fst).Nodup
  | [], _, h => h
  | n :: rest, acc, h => by
      have hstep : groupFold P key (n :: rest) acc =
          groupFold P key rest (if P n = true then bucketAdd acc (key n) n else acc) := rfl
      rw [hstep]
      by_cases hp : P n = true
      · rw [if_pos hp]
        exact groupFold_keys_nodup P key rest _ (bucketAdd_keys_nodup acc (key n) n h)
      · rw [if_neg hp]
        exact groupFold_keys_nodup P key rest acc h

theorem groupFold_get {κ : Type _} [DecidableEq κ]
    (P : Node → Bool) (key : Node → κ) (k : κ) :
    ∀ (l : List Node) (acc : List (κ × List Node)),
    alGet (groupFold P key l acc) k =
      (if (l.filter (fun n => P n && decide (key n = k))).isEmpty then alGet acc k
       else some ((alGet acc k).getD [] ++
         l.filter (fun n => P n && decide (key n = k))))
  | [], acc => by simp [groupFold]
  | n :: rest, acc => by
      have hstep : groupFold P key (n :: rest) acc =
          groupFold P key rest (if P n = true then bucketAdd acc (key n) n else acc) := rfl
      rw [hstep]
      by_cases hp : P n = true
      · by_cases hk : key n = k
        · have hf : (n :: rest).filter (fun n => P n && decide (key n = k)) =
              n :: rest.filter (fun n => P n && decide (key n = k)) :=
            List.filter_cons_of_pos (by simp [hp, hk])
          rw [if_pos hp, hk, hf]
          rw [groupFold_get P key k rest (bucketAdd acc k n)]
          rw [bucketAdd_get_self acc k n]
          by_cases he : (rest.filter (fun n => P n && decide (key n = k))).isEmpty
          · rw [if_pos he, if_neg (by simp)]
            have : rest.filter (fun n => P n && decide (key n = k)) = [] :=
              List.isEmpty_iff.mp he
            rw [this]
          · rw [if_neg he, if_neg (by simp)]
            rw [Option.getD_some, List.append_assoc]
            have : [n] ++ rest.filter (fun n => P n && decide (key n = k)) =
                n :: rest.filter (fun n => P n && decide (key n = k)) := rfl
            rw [← this]
        · have hf : (n :: rest).filter (fun n => P n && decide (key n = k)) =
              rest.filter (fun n => P n && decide (key n = k)) :=
            List.filter_cons_of_neg (by simp [hk])
          rw [if_pos hp, hf]
          rw [groupFold_get P key k rest (bucketAdd acc (key n) n)]
          rw [bucketAdd_get_ne acc (key n) k n hk]
      · have hf : (n :: rest).filter (fun n => P n && decide (key n = k)) =
            rest.filter (fun n => P n && decide (key n = k)) :=
          List.filter_cons_of_neg (by simp [hp])
        rw [if_neg hp, hf]
        exact groupFold_get P key k rest acc

theorem alGet_alSet_cases {κ α : Type _} [DecidableEq κ]
    (m : List (κ × α)) (k k' : κ) (v w : α)
    (h : alGet (alSet m k v) k' = some w) : w = v ∨ alGet m k' = some w := by
  by_cases hk : k = k'
  · subst hk
    rw [alGet_alSet_self] at h
    exact Or.inl (Option.some_injective _ h).symm
  · rw [alGet_alSet_ne m k k' v hk] at h
    exact Or.inr h

theorem gridAligned_alSet (g : ℚ) (m : List (String × Position)) (id : String)
    (p : Position) (h : gridAligned g m)
    (hx : ∃ k : ℤ, p.x = k * g) (hy : ∃ k : ℤ, p.y = k * g) :
    gridAligned g (alSet m id p) := by
  intro id2 q hq
  rcases alGet_alSet_cases m id id2 p q hq with hq | hq
  · subst hq
    exact ⟨hx, hy⟩
  · exact h id2 q hq

theorem flatten_map_singleton {α β : Type _} (f : α → β) :
    ∀ l : List α, (l.map (fun x => [f x])).flatten = l.map f
  | [] => rfl
  | x :: rest => by simp [flatten_map_singleton f rest]

theorem foldl_pos_isSome {γ : Type _} (g : LayoutComputation → γ → LayoutComputation)
    (idsOf : γ → List String)
    (hg : ∀ acc x id, (alGet (g acc x).positions id).isSome ↔
      ((alGet acc.positions id).isSome ∨ id ∈ idsOf x)) :
    ∀ (l : List γ) (acc : LayoutComputation) (id : String),
    (alGet (l.foldl g acc).positions id).isSome ↔
      ((alGet acc.positions id).isSome ∨ id ∈ (l.map idsOf).flatten)
  | [], acc, id => by simp
  | x :: rest, acc, id => by
      rw [List.foldl_cons, foldl_pos_isSome g idsOf hg rest (g acc x) id, hg acc x id]
      simp [or_assoc]

theorem foldl_groups_flatten {γ : Type _}
    (g : LayoutComputation → γ → LayoutComputation) (idsOf : γ → List String)
    (hg : ∀ acc x, ((g acc x).groups.map Prod.snd).flatten.Perm
      ((acc.groups.map Prod.snd).flatten ++ idsOf x)) :
    ∀ (l : List γ) (acc : LayoutComputation),
    ((l.foldl g acc).groups.map Prod.snd).flatten.Perm
      ((acc.groups.map Prod.snd).flatten ++ (l.map idsOf).flatten)
  | [], acc => by simp
  | x :: rest, acc => by
      rw [List.foldl_cons]
      refine (foldl_groups_flatten g idsOf hg rest (g acc x)).trans ?_
      refine ((hg acc x).append_right _).trans ?_
      rw [List.map_cons, List.flatten_cons, ← List.append_assoc]

theorem foldl_gridAligned {γ : Type _} (gsz : ℚ)
    (g : LayoutComputation → γ → LayoutComputation)
    (hg : ∀ acc x, gridAligned gsz acc.positions → gridAligned gsz (g acc x).positions) :
    ∀ (l : List γ) (acc : LayoutComputation),
    gridAligned gsz acc.positions → gridAligned gsz ((l.foldl g acc).positions)
  | [], _, h => h
  | x :: rest, acc, h => by
      rw [List.foldl_cons]
      exact foldl_gridAligned gsz g hg rest (g acc x) (hg acc x h)

theorem assignColumn_pos_isSome (o : LayoutOptions) (gid : String) (x : ℚ)
    (ci : ℤ) (acc : LayoutComputation) (p : Nat × Node) (id : String) :
    (alGet (assignColumn o gid x ci acc p).positions id).isSome ↔
      ((alGet acc.positions id).isSome ∨ id ∈ [p.2.id]) := by
  unfold assignColumn
  rw [alGet_alSet_isSome_iff]
  simp

theorem assignColumn_groups_flatten (o : LayoutOptions) (gid : String) (x : ℚ)
    (ci : ℤ) (acc : LayoutComputation) (p : Nat × Node) :
    ((assignColumn o gid x ci acc p).groups.map Prod.snd).flatten.Perm
      ((acc.groups.map Prod.snd).flatten ++ [p.2.id]) := by
  unfold assignColumn
  exact alSet_snoc_join_perm p.2.id acc.groups gid

theorem assignColumn_gridAligned (o : LayoutOptions) (gid : String) (x : ℚ)
    (ci : ℤ) (acc : LayoutComputation) (p : Nat × Node)
    (hx : ∃ k : ℤ, x = k * o.gridSize)
    (h : gridAligned o.gridSize acc.positions) :
    gridAligned o.gridSize (assignColumn o gid x ci acc p).positions := by
  unfold assignColumn
  exact gridAligned_alSet o.gridSize acc.positions p.2.id _ h hx
    (snapToGrid_isMultiple _ _)

theorem sorted_enum_ids (le : Node → Node → Bool) (l : List Node) :
    ((stableSort le l).enum.map (fun p => [p.2.id])).flatten.Perm (l.map Node.id) := by
  rw [flatten_map_singleton]
  have h1 : (stableSort le l).enum.map (fun p => p.2.id) =
      ((stableSort le l).enum.map Prod.snd).map Node.id := by
    rw [List.map_map]
    rfl
  rw [h1, List.enum_map_snd]
  exact (stableSort_perm le l).map Node.id

theorem assignGroup_pos_isSome (o : LayoutOptions) (acc : LayoutComputation)
    (gp : Nat × (String × List Node)) (id : String) :
    (alGet (assignGroup o acc gp).positions id).isSome ↔
      ((alGet acc.positions id).isSome ∨ id ∈ gp.2.2.map Node.id) := by
  unfold assignGroup
  rw [foldl_pos_isSome (assignColumn o gp.2.1
      (snapToGrid (o.margin + (gp.1 : ℚ) * o.columnSpacing) o.gridSize) (gp.1 : ℤ))
    (fun p => [p.2.id])
    (assignColumn_pos_isSome o gp.2.1 _ (gp.1 : ℤ)) _ acc id]
  rw [Iff.comm]
  refine or_congr Iff.rfl ?_
  exact (sorted_enum_ids leY gp.2.2).mem_iff.symm

theorem assignGroup_groups_flatten (o : LayoutOptions) (acc : LayoutComputation)
    (gp : Nat × (String × List Node)) :
    ((assignGroup o acc gp).groups.map Prod.snd).flatten.Perm
      ((acc.groups.map Prod.snd).flatten ++ gp.2.2.map Node.id) := by
  unfold assignGroup
  refine (foldl_groups_flatten (assignColumn o gp.2.1
      (snapToGrid (o.margin + (gp.1 : ℚ) * o.columnSpacing) o.gridSize) (gp.1 : ℤ))
    (fun p => [p.2.id])
    (assignColumn_groups_flatten o gp.2.1 _ (gp.1 : ℤ)) _ acc).trans ?_
  exact (sorted_enum_ids leY gp.2.2).append_left _

theorem assignGroup_gridAligned (o : LayoutOptions) (acc : LayoutComputation)
    (gp : Nat × (String × List Node))
    (h : gridAligned o.gridSize acc.positions) :
    gridAligned o.gridSize (assignGroup o acc gp).positions := by
  unfold assignGroup
  exact foldl_gridAligned o.gridSize _
    (fun acc2 p h2 => assignColumn_gridAligned o gp.2.1 _ (gp.1 : ℤ) acc2 p
      (snapToGrid_isMultiple _ _) h2) _ acc h

theorem flowAssignNode_pos_isSome (o : LayoutOptions) (lk : String) (x : ℚ)
    (acc : LayoutComputation) (p : Nat × Node) (id : String) :
    (alGet (flowAssignNode o lk x acc p).positions id).isSome ↔
      ((alGet acc.positions id).isSome ∨ id ∈ [p.2.id]) := by
  unfold flowAssignNode
  rw [alGet_alSet_isSome_iff]
  simp

theorem flowAssignNode_groups_flatten (o : LayoutOptions) (lk : String) (x : ℚ)
    (acc : LayoutComputation) (p : Nat × Node) :
    ((flowAssignNode o lk x acc p).groups.map Prod.snd).flatten.Perm
      ((acc.groups.map Prod.snd).flatten ++ [p.2.id]) := by
  unfold flowAssignNode
  exact alSet_snoc_join_perm p.2.id acc.groups lk

theorem flowAssignNode_gridAligned (o : LayoutOptions) (lk : String) (x : ℚ)
    (acc : LayoutComputation) (p : Nat × Node)
    (hx : ∃ k : ℤ, x = k * o.gridSize)
    (h : gridAligned o.gridSize acc.positions) :
    gridAligned o.gridSize (flowAssignNode o lk x acc p).positions := by
  unfold flowAssignNode
  exact gridAligned_alSet o.gridSize acc.positions p.2.id _ h hx
    (snapToGrid_isMultiple _ _)

theorem flowAssignColumn_pos_isSome (o : LayoutOptions) (acc : LayoutComputation)
    (gp : Nat × (ℤ × List Node)) (id : String) :
    (alGet (flowAssignColumn o acc gp).positions id).isSome ↔
      ((alGet acc.positions id).isSome ∨ id ∈ gp.2.2.map Node.id) := by
  unfold flowAssignColumn
  rw [foldl_pos_isSome (flowAssignNode o ("layer:" ++ toString gp.2.1)
      (snapToGrid (o.margin + (gp.1 : ℚ) * o.columnSpacing) o.gridSize))
    (fun p => [p.2.id])
    (flowAssignNode_pos_isSome o ("layer:" ++ toString gp.2.1) _) _ acc id]
  rw [Iff.comm]
  refine or_congr Iff.rfl ?_
  exact (sorted_enum_ids leY gp.2.2).mem_iff.symm

theorem flowAssignColumn_groups_flatten (o : LayoutOptions)
    (acc : LayoutComputation) (gp : Nat × (ℤ × List Node)) :
    ((flowAssignColumn o acc gp).groups.map Prod.snd).flatten.Perm
      ((acc.groups.map Prod.snd).flatten ++ gp.2.2.map Node.id) := by
  unfold flowAssignColumn
  refine (foldl_groups_flatten (flowAssignNode o ("layer:" ++ toString gp.2.1)
      (snapToGrid (o.margin + (gp.1 : ℚ) * o.columnSpacing) o.gridSize))
    (fun p => [p.2.id])
    (flowAssignNode_groups_flatten o ("layer:" ++ toString gp.2.1) _) _ acc).trans ?_
  exact (sorted_enum_ids leY gp.2.2).append_left _

theorem flowAssignColumn_gridAligned (o : LayoutOptions) (acc : LayoutComputation)
    (gp : Nat × (ℤ × List Node))
    (h : gridAligned o.gridSize acc.positions) :
    gridAligned o.gridSize (flowAssignColumn o acc gp).positions := by
  unfold flowAssignColumn
  exact foldl_gridAligned o.gridSize _
    (fun acc2 p h2 => flowAssignNode_gridAligned o ("layer:" ++ toString gp.2.1) _ acc2 p
      (snapToGrid_isMultiple _ _) h2) _ acc h

theorem timeAssignNode_pos_isSome (o : LayoutOptions) (acc : LayoutComputation)
    (p : Nat × Node) (id : String) :
    (alGet (timeAssignNode o acc p).positions id).isSome ↔
      ((alGet acc.positions id).isSome ∨ id ∈ [p.2.id]) := by
  unfold timeAssignNode
  rw [alGet_alSet_isSome_iff]
  simp

theorem timeAssignNode_groups_flatten (o : LayoutOptions) (acc : LayoutComputation)
    (p : Nat × Node) :
    ((timeAssignNode o acc p).groups.map Prod.snd).flatten.Perm
      ((acc.groups.map Prod.snd).flatten ++ [p.2.id]) := by
  unfold timeAssignNode
  exact alSet_snoc_join_perm p.2.id acc.groups _

theorem timeAssignNode_gridAligned (o : LayoutOptions) (acc : LayoutComputation)
    (p : Nat × Node) (h : gridAligned o.gridSize acc.positions) :
    gridAligned o.gridSize (timeAssignNode o acc p).positions := by
  unfold timeAssignNode
  exact gridAligned_alSet o.gridSize acc.positions p.2.id _ h
    (snapToGrid_isMultiple _ _) (snapToGrid_isMultiple _ _)

theorem enum_map_comp_snd {α β : Type _} (f : α → β) (l : List α) :
    l.enum.map (fun p => f p.2) = l.map f := by
  have h : (fun p : Nat × α => f p.2) = f ∘ Prod.snd := rfl
  rw [h, ← List.map_map, List.enum_map_snd]

theorem flatten_map_map_id {κ : Type _} (gs : List (κ × List Node)) :
    (gs.map (fun p => p.2.map Node.id)).flatten =
      ((gs.map Prod.snd).flatten).map Node.id := by
  rw [List.map_flatten, List.map_map]
  rfl

theorem APFG_pos_isSome (gs : List (String × List Node)) (o : LayoutOptions)
    (id : String) :
    (alGet (assignPositionsFromGroups gs o).positions id).isSome ↔
      id ∈ (gs.map (fun p => p.2.map Node.id)).flatten := by
  unfold assignPositionsFromGroups
  rw [foldl_pos_isSome (assignGroup o) (fun gp => gp.2.2.map Node.id)
    (assignGroup_pos_isSome o) _ _ id]
  have h0 : (alGet (⟨[], [], []⟩ : LayoutComputation).positions id).isSome = False := by
    simp [alGet]
  rw [h0, false_or, enum_map_comp_snd (fun q => q.2.map Node.id) gs]

theorem APFG_groups_flatten (gs : List (String × List Node)) (o : LayoutOptions) :
    ((assignPositionsFromGroups gs o).groups.map Prod.snd).flatten.Perm
      ((gs.map (fun p => p.2.map Node.id)).flatten) := by
  unfold assignPositionsFromGroups
  refine (foldl_groups_flatten (assignGroup o) (fun gp => gp.2.2.map Node.id)
    (assignGroup_groups_flatten o) _ _).trans ?_
  rw [enum_map_comp_snd (fun q => q.2.map Node.id) gs]
  exact List.Perm.refl _

theorem APFG_gridAligned (gs : List (String × List Node)) (o : LayoutOptions) :
    gridAligned o.gridSize (assignPositionsFromGroups gs o).positions := by
  unfold assignPositionsFromGroups
  refine foldl_gridAligned o.gridSize _ (fun acc gp h => assignGroup_gridAligned o acc gp h)
    _ _ ?_
  intro id p h
  simp [alGet] at h

/-- Positional and grouping behavior of `assignPositionsFromGroups` when the
flattened columns are a permutation of the node list. -/
theorem APFG_pos_groups (gs : List (String × List Node)) (o : LayoutOptions)
    (nodes : List Node) (h : ((gs.map Prod.snd).flatten).Perm nodes) :
    (∀ id, (alGet (assignPositionsFromGroups gs o).positions id).isSome ↔
      id ∈ nodes.map Node.id) ∧
    ((assignPositionsFromGroups gs o).groups.map Prod.snd).flatten.Perm
      (nodes.map Node.id) := by
  constructor
  · intro id
    rw [APFG_pos_isSome gs o id, flatten_map_map_id]
    exact (h.map Node.id).mem_iff
  · refine (APFG_groups_flatten gs o).trans ?_
    rw [flatten_map_map_id]
    exact h.map Node.id

/-- The columns of `layoutByTags` enumerate the nodes exactly once. -/
theorem byTags_columns_perm (nodes : List Node) :
    ((((if (nodes.filter (fun n => n.tags.isEmpty)).isEmpty then
        stableSort (fun a b => a.1 ≤ b.1)
          (groupFold (fun n => !n.tags.isEmpty) (fun n => n.tags.headD "") nodes [])
      else
        stableSort (fun a b => a.1 ≤ b.1)
          (groupFold (fun n => !n.tags.isEmpty) (fun n => n.tags.headD "") nodes []) ++
          [("untagged", nodes.filter (fun n => n.tags.isEmpty))]) :
        List (String × List Node)).map Prod.snd).flatten).Perm nodes := by
  have hsorted : ((stableSort (fun a b : String × List Node => a.1 ≤ b.1)
      (groupFold (fun n => !n.tags.isEmpty) (fun n => n.tags.headD "") nodes [])).map
        Prod.snd).flatten.Perm
      (nodes.filter (fun n => !n.tags.isEmpty)) := by
    refine (((stableSort_perm _ _).map Prod.snd).flatten).trans ?_
    simpa using groupFold_join_perm (fun n => !n.tags.isEmpty)
      (fun n => n.tags.headD "") nodes []
  have hfl := List.filter_append_perm (fun n => !n.tags.isEmpty) nodes
  have hneg : (fun n : Node => !(!n.tags.isEmpty)) = (fun n : Node => n.tags.isEmpty) := by
    funext n
    simp
  rw [hneg] at hfl
  by_cases hu : (nodes.filter (fun n => n.tags.isEmpty)).isEmpty
  · rw [if_pos hu]
    have hempty : nodes.filter (fun n => n.tags.isEmpty) = [] := List.isEmpty_iff.mp hu
    rw [hempty, List.append_nil] at hfl
    exact hsorted.trans hfl
  · rw [if_neg hu]
    rw [List.map_append, List.flatten_append]
    refine ((hsorted.append_right _).trans ?_)
    simpa using hfl

/-- The columns of `layoutByTypes` enumerate the nodes exactly once. -/
theorem byTypes_columns_perm (nodes : List Node) :
    (((ORDERED_NODE_KINDS.filter (fun k =>
        (alGet (groupFold (fun _ => true) (fun n => n.kind) nodes []) k).isSome)).map
      (fun k => (kindKey k,
        (alGet (groupFold (fun _ => true) (fun n => n.kind) nodes []) k).getD []))).map
        Prod.snd).flatten.Perm nodes := by
  set tg := groupFold (fun _ => true) (fun n => n.kind) nodes [] with htg
  have hkeysnodup : (tg.map Prod.fst).Nodup := by
    rw [htg]
    exact groupFold_keys_nodup _ _ nodes [] (by simp)
  have hordnodup : (ORDERED_NODE_KINDS.filter (fun k => (alGet tg k).isSome)).Nodup :=
    List.Nodup.filter _ (by decide)
  have hmemord : ∀ k : NodeKind, k ∈ ORDERED_NODE_KINDS := by
    intro k
    cases k <;> decide
  have hkeyperm : (ORDERED_NODE_KINDS.filter (fun k => (alGet tg k).isSome)).Perm
      (tg.map Prod.fst) := by
    rw [List.perm_ext_iff_of_nodup hordnodup hkeysnodup]
    intro k
    rw [List.mem_filter]
    constructor
    · intro hk
      exact (alGet_isSome_iff_mem_keys tg k).mp (by simpa using hk.2)
    · intro hk
      exact ⟨hmemord k, by simpa using (alGet_isSome_iff_mem_keys tg k).mpr hk⟩
  have hsnd : ((ORDERED_NODE_KINDS.filter (fun k => (alGet tg k).isSome)).map
      (fun k => (kindKey k, (alGet tg k).getD []))).map Prod.snd =
      (ORDERED_NODE_KINDS.filter (fun k => (alGet tg k).isSome)).map
        (fun k => (alGet tg k).getD []) := by
    rw [List.map_map]
    rfl
  have hbuckets : ((tg.map Prod.fst).map (fun k => (alGet tg k).getD [])) =
      tg.map Prod.snd := by
    rw [List.map_map]
    refine List.map_congr_left ?_
    intro p hp
    have : alGet tg p.1 = some p.2 :=
      alGet_of_mem_of_nodup tg p.1 p.2 hkeysnodup (by simpa using hp)
    simp [Function.comp, this]
  rw [hsnd]
  refine ((hkeyperm.map (fun k => (alGet tg k).getD [])).flatten).trans ?_
  rw [hbuckets]
  refine (groupFold_join_perm (fun _ => true) (fun n => n.kind) nodes []).trans ?_
  simp

theorem layoutByTags_eq (nodes : List Node) (o : LayoutOptions) :
    layoutByTags nodes o = assignPositionsFromGroups
      (if (nodes.filter (fun n => n.tags.isEmpty)).isEmpty then
        stableSort (fun a b => a.1 ≤ b.1)
          (groupFold (fun n => !n.tags.isEmpty) (fun n => n.tags.headD "") nodes [])
      else
        stableSort (fun a b => a.1 ≤ b.1)
          (groupFold (fun n => !n.tags.isEmpty) (fun n => n.tags.headD "") nodes []) ++
          [("untagged", nodes.filter (fun n => n.tags.isEmpty))]) o := rfl

theorem layoutByTypes_eq (nodes : List Node) (o : LayoutOptions) :
    layoutByTypes nodes o = assignPositionsFromGroups
      ((ORDERED_NODE_KINDS.filter (fun k =>
        (alGet (groupFold (fun _ => true) (fun n => n.kind) nodes []) k).isSome)).map
      (fun k => (kindKey k,
        (alGet (groupFold (fun _ => true) (fun n => n.kind) nodes []) k).getD [])))
      o := rfl

theorem layoutByTime_pos_groups (nodes : List Node) (o : LayoutOptions)
    (hne : nodes ≠ []) :
    (∀ id, (alGet (layoutByTime nodes o).positions id).isSome ↔
      id ∈ nodes.map Node.id) ∧
    ((layoutByTime nodes o).groups.map Prod.snd).flatten.Perm (nodes.map Node.id) := by
  unfold layoutByTime
  rw [if_neg hne]
  constructor
  · intro id
    rw [foldl_pos_isSome (timeAssignNode o) (fun p => [p.2.id])
      (timeAssignNode_pos_isSome o) _ _ id]
    have h0 : (alGet (⟨[], [], []⟩ : LayoutComputation).positions id).isSome = False := by
      simp [alGet]
    rw [h0, false_or]
    exact (sorted_enum_ids (fun a b => a.createdAt ≤ b.createdAt) nodes).mem_iff
  · refine (foldl_groups_flatten (timeAssignNode o) (fun p => [p.2.id])
      (timeAssignNode_groups_flatten o) _ _).trans ?_
    simpa using sorted_enum_ids (fun a b => a.createdAt ≤ b.createdAt) nodes

theorem layoutByTime_gridAligned (nodes : List Node) (o : LayoutOptions) :
    gridAligned o.gridSize (layoutByTime nodes o).positions := by
  unfold layoutByTime
  by_cases hne : nodes = []
  · rw [if_pos hne]
    intro id p h
    simp [alGet] at h
  · rw [if_neg hne]
    refine foldl_gridAligned o.gridSize _
      (fun acc p h => timeAssignNode_gridAligned o acc p h) _ _ ?_
    intro id p h
    simp [alGet] at h

theorem flowGrid_sorted_columns_perm (nodes : List Node)
    (layers : List (String × ℤ)) :
    (((stableSort (fun a b => a.1 ≤ b.1)
      (groupFold (fun _ => true) (fun n => (alGet layers n.id).getD 0) nodes [])).map
        Prod.snd).flatten).Perm nodes := by
  refine (((stableSort_perm (fun a b : ℤ × List Node => a.1 ≤ b.1) _).map
    Prod.snd).flatten).trans ?_
  refine (groupFold_join_perm (fun _ => true)
    (fun n => (alGet layers n.id).getD 0) nodes []).trans ?_
  simp

theorem computeFlowGridLayout_pos_groups (fuel : Nat) (nodes : List Node)
    (edges : List Edge) (o : LayoutOptions) (r : LayoutComputation)
    (hne : nodes ≠ [])
    (hr : computeFlowGridLayout fuel nodes edges o = some r) :
    (∀ id, (alGet r.positions id).isSome ↔ id ∈ nodes.map Node.id) ∧
    (r.groups.map Prod.snd).flatten.Perm (nodes.map Node.id) := by
  unfold computeFlowGridLayout at hr
  rw [if_neg hne] at hr
  rcases hbl : buildLayers fuel nodes edges with _ | layers
  · rw [hbl] at hr
    cases hr
  · rw [hbl] at hr
    have hr2 := (Option.some_injective _ (hr : some _ = some r))
    subst hr2
    constructor
    · intro id
      dsimp only
      rw [foldl_pos_isSome (flowAssignColumn o) (fun gp => gp.2.2.map Node.id)
        (flowAssignColumn_pos_isSome o) _ _ id]
      have h0 : (alGet (⟨[], [], layers⟩ : LayoutComputation).positions id).isSome =
          False := by
        simp [alGet]
      rw [h0, false_or, enum_map_comp_snd (fun q : ℤ × List Node => q.2.map Node.id)
        (stableSort (fun a b => a.1 ≤ b.1)
          (groupFold (fun _ => true) (fun n => (alGet layers n.id).getD 0) nodes [])),
        flatten_map_map_id]
      exact ((flowGrid_sorted_columns_perm nodes layers).map Node.id).mem_iff
    · dsimp only
      refine (foldl_groups_flatten (flowAssignColumn o) (fun gp => gp.2.2.map Node.id)
        (flowAssignColumn_groups_flatten o) _ _).trans ?_
      have h0 : ((⟨[], [], layers⟩ : LayoutComputation).groups.map Prod.snd).flatten =
          [] := rfl
      rw [h0, List.nil_append, enum_map_comp_snd (fun q : ℤ × List Node => q.2.map Node.id)
        (stableSort (fun a b => a.1 ≤ b.1)
          (groupFold (fun _ => true) (fun n => (alGet layers n.id).getD 0) nodes [])),
        flatten_map_map_id]
      exact (flowGrid_sorted_columns_perm nodes layers).map Node.id

theorem computeFlowGridLayout_gridAligned (fuel : Nat) (nodes : List Node)
    (edges : List Edge) (o : LayoutOptions) (r : LayoutComputation)
    (hr : computeFlowGridLayout fuel nodes edges o = some r) :
    gridAligned o.gridSize r.positions := by
  unfold computeFlowGridLayout at hr
  by_cases hne : nodes = []
  · rw [if_pos hne] at hr
    have hr2 := Option.some_injective _ hr
    subst hr2
    intro id p h
    simp [alGet] at h
  · rw [if_neg hne] at hr
    rcases hbl : buildLayers fuel nodes edges with _ | layers
    · rw [hbl] at hr
      cases hr
    · rw [hbl] at hr
      have hr2 := (Option.some_injective _ (hr : some _ = some r))
      subst hr2
      refine foldl_gridAligned o.gridSize _
        (fun acc gp h => flowAssignColumn_gridAligned o acc gp h) _ _ ?_
      intro id p h
      simp [alGet] at h

/-- C9: every coordinate of every position in a `computeLayout` result is an
exact integer multiple of the configured grid size, in every mode. -/
theorem computeLayout_grid_aligned (fuel : Nat) (mode : LayoutMode)
    (nodes : List Node) (edges : List Edge) (options : LayoutOptions)
    (hpos : 0 < options.gridSize) (r : LayoutComputation)
    (hr : computeLayout fuel mode nodes edges options = some r) :
    ∀ id p, alGet r.positions id = some p →
      (∃ k : ℤ, p.x = k * options.gridSize) ∧
      (∃ k : ℤ, p.y = k * options.gridSize) := by
  cases mode with
  | byTags =>
      have hr2 := Option.some_injective _ (by simpa [computeLayout] using hr)
      rw [← hr2, layoutByTags_eq]
      exact APFG_gridAligned _ options
  | byTypes =>
      have hr2 := Option.some_injective _ (by simpa [computeLayout] using hr)
      rw [← hr2, layoutByTypes_eq]
      exact APFG_gridAligned _ options
  | byTime =>
      have hr2 := Option.some_injective _ (by simpa [computeLayout] using hr)
      rw [← hr2]
      exact layoutByTime_gridAligned nodes options
  | byCausality =>
      exact computeFlowGridLayout_gridAligned fuel nodes edges options r
        (by simpa [computeLayout] using hr)
  | flowGrid =>
      exact computeFlowGridLayout_gridAligned fuel nodes edges options r
        (by simpa [computeLayout] using hr)

/-- Witness for C9 at the concrete byTags scenario input: the position of
`n1` is `(120, 120)`, a multiple of the default grid 8. -/
theorem computeLayout_grid_aligned_witness :
    0 < DEFAULT_LAYOUT_OPTIONS.gridSize ∧
    ((∃ k : ℤ, (120 : ℚ) = k * DEFAULT_LAYOUT_OPTIONS.gridSize) ∧
     (∃ k : ℤ, (120 : ℚ) = k * DEFAULT_LAYOUT_OPTIONS.gridSize)) :=
  ⟨by decide,
   computeLayout_grid_aligned 20 .byTags
     [taggedNode "n1" ["x"], taggedNode "n2" ["x"], testNode "n3"] []
     DEFAULT_LAYOUT_OPTIONS (by decide) _ rfl "n1" ⟨120, 120⟩ (by decide)⟩

/-! ### Group-structure lemmas for the column layouts -/

theorem assignColumn_fold_groups (o : LayoutOptions) (k : String) (x : ℚ)
    (ci : ℤ) :
    ∀ (ps : List (Nat × Node)) (acc : LayoutComputation), ps ≠ [] →
    (ps.foldl (assignColumn o k x ci) acc).groups =
      alSet acc.groups k
        ((alGet acc.groups k).getD [] ++ ps.map (fun p => p.2.id))
  | [], _, h => absurd rfl h
  | [p], acc, _ => by
      simp only [List.foldl_cons, List.foldl_nil, List.map_cons, List.map_nil]
      rfl
  | p :: q :: rest, acc, _ => by
      have ih := assignColumn_fold_groups o k x ci (q :: rest)
        (assignColumn o k x ci acc p) (by simp)
      rw [List.foldl_cons, ih]
      have hg : (assignColumn o k x ci acc p).groups =
          alSet acc.groups k ((alGet acc.groups k).getD [] ++ [p.2.id]) := rfl
      rw [hg, alGet_alSet_self, alSet_alSet_same, Option.getD_some,
        List.append_assoc]
      rfl

theorem assignGroup_fold_groups (o : LayoutOptions) :
    ∀ (gs : List (String × List Node)) (i : Nat) (acc : LayoutComputation),
    (∀ g ∈ gs, g.2 ≠ []) →
    (∀ g ∈ gs, alGet acc.groups g.1 = none) →
    (gs.map Prod.fst).Nodup →
    ((gs.enumFrom i).foldl (assignGroup o) acc).groups =
      acc.groups ++ gs.map (fun g => (g.1, (stableSort leY g.2).map Node.id))
  | [], _, acc, _, _, _ => by simp
  | g :: rest, i, acc, hne, hnone, hnd => by
      have hsne : stableSort leY g.2 ≠ [] := by
        intro h
        have hp := stableSort_perm leY g.2
        rw [h] at hp
        exact hne g (List.mem_cons_self g rest) hp.symm.eq_nil
      have hene : (stableSort leY g.2).enum ≠ [] := by
        intro h
        apply hsne
        have hl : (stableSort leY g.2).enum.length =
            (stableSort leY g.2).length := List.enum_length
        rw [h] at hl
        exact List.length_eq_zero.mp hl.symm
      have hm : (stableSort leY g.2).enum.map (fun p : Nat × Node => p.2.id) =
          (stableSort leY g.2).map Node.id :=
        enum_map_comp_snd (fun n => n.id) (stableSort leY g.2)
      have h1 : (assignGroup o acc (i, g)).groups =
          alSet acc.groups g.1 ((alGet acc.groups g.1).getD [] ++
            (stableSort leY g.2).map Node.id) := by
        have h0 := assignColumn_fold_groups o g.1
          (snapToGrid (o.margin + ((i : ℚ)) * o.columnSpacing) o.gridSize)
          (i : ℤ) ((stableSort leY g.2).enum) acc hene
        rw [hm] at h0
        exact h0
      have hgn := hnone g (List.mem_cons_self g rest)
      have hacc1 : (assignGroup o acc (i, g)).groups =
          acc.groups ++ [(g.1, (stableSort leY g.2).map Node.id)] := by
        rw [h1, hgn, Option.getD_none, List.nil_append,
          alSet_of_get_none _ _ _ hgn]
      have hnone2 : ∀ g2 ∈ rest, alGet (assignGroup o acc (i, g)).groups g2.1 = none := by
        intro g2 hg2
        rw [hacc1, alGet_append_none _ _ _ (hnone g2 (List.mem_cons_of_mem g hg2))]
        have hne1 : g.1 ≠ g2.1 := by
          intro h
          rw [List.map_cons, List.nodup_cons] at hnd
          exact hnd.1 (by rw [h]; exact List.mem_map.mpr ⟨g2, hg2, rfl⟩)
        simp [alGet, hne1]
      have hnd2 : (rest.map Prod.fst).Nodup := by
        rw [List.map_cons, List.nodup_cons] at hnd
        exact hnd.2
      have hne2 : ∀ g2 ∈ rest, g2.2 ≠ [] :=
        fun g2 hg2 => hne g2 (List.mem_cons_of_mem g hg2)
      have ih := assignGroup_fold_groups o rest (i + 1)
        (assignGroup o acc (i, g)) hne2 hnone2 hnd2
      have hstep : (((g :: rest).enumFrom i).foldl (assignGroup o) acc) =
          ((rest.enumFrom (i + 1)).foldl (assignGroup o)
            (assignGroup o acc (i, g))) := rfl
      rw [hstep, ih, hacc1, List.append_assoc]
      rfl

theorem APFG_groups (gs : List (String × List Node)) (o : LayoutOptions)
    (hne : ∀ g ∈ gs, g.2 ≠ []) (hnd : (gs.map Prod.fst).Nodup) :
    (assignPositionsFromGroups gs o).groups =
      gs.map (fun g => (g.1, (stableSort leY g.2).map Node.id)) := by
  have h := assignGroup_fold_groups o gs 0 ⟨[], [], []⟩ hne (fun g _ => rfl) hnd
  exact h

theorem groupFold_get_nil {κ : Type _} [DecidableEq κ]
    (P : Node → Bool) (key : Node → κ) (k : κ) (l : List Node) :
    alGet (groupFold P key l []) k =
      (if (l.filter (fun n => P n && decide (key n = k))).isEmpty then none
       else some (l.filter (fun n => P n && decide (key n = k)))) := by
  rw [groupFold_get]
  by_cases hf : (l.filter (fun n => P n && decide (key n = k))).isEmpty
  · rw [if_pos hf, if_pos hf]
    rfl
  · rw [if_neg hf, if_neg hf]
    rfl

theorem groupFold_keys_mem {κ : Type _} [DecidableEq κ] (P : Node → Bool)
    (key : Node → κ) (nodes : List Node) (k : κ)
    (hk : k ∈ (groupFold P key nodes []).map Prod.fst) :
    ∃ n ∈ nodes, P n = true ∧ key n = k := by
  rw [← alGet_isSome_iff_mem_keys, groupFold_get_nil] at hk
  by_cases hf : (nodes.filter (fun n => P n && decide (key n = k))).isEmpty
  · rw [if_pos hf] at hk
    simp at hk
  · rcases List.exists_mem_of_ne_nil _
      (fun h => hf (List.isEmpty_iff.mpr h)) with ⟨n, hn⟩
    rcases List.mem_filter.mp hn with ⟨hmem, hcond⟩
    simp only [Bool.and_eq_true, decide_eq_true_eq] at hcond
    exact ⟨n, hmem, hcond.1, hcond.2⟩

theorem groupFold_mem_val_ne_nil {κ : Type _} [DecidableEq κ] (P : Node → Bool)
    (key : Node → κ) (nodes : List Node) (g : κ × List Node)
    (hg : g ∈ groupFold P key nodes []) : g.2 ≠ [] := by
  intro h2
  have hnd := groupFold_keys_nodup P key nodes [] (by simp)
  have hget := alGet_of_mem_of_nodup _ g.1 g.2 hnd hg
  rw [groupFold_get_nil] at hget
  by_cases hf : (nodes.filter (fun n => P n && decide (key n = g.1))).isEmpty
  · rw [if_pos hf] at hget
    exact Option.noConfusion hget
  · rw [if_neg hf] at hget
    injection hget with h3
    rw [h2] at h3
    exact hf (List.isEmpty_iff.mpr h3)

theorem alGet_append_single_ne {κ α : Type _} [DecidableEq κ]
    (m : List (κ × α)) (k k2 : κ) (v : α) (h : k2 ≠ k) :
    alGet (m ++ [(k, v)]) k2 = alGet m k2 := by
  rcases h0 : alGet m k2 with _ | w
  · rw [alGet_append_none _ _ _ h0]
    simp [alGet, Ne.symm h]
  · exact alGet_append_some m [(k, v)] k2 w h0

theorem getLast_append_single {α : Type _} (a : α) :
    ∀ (l : List α), (l ++ [a]).getLast? = some a
  | [] => rfl
  | b :: rest => by
      rw [List.cons_append, List.getLast?_cons, getLast_append_single a rest]
      simp

theorem layoutByTags_groups_eq (nodes : List Node) (o : LayoutOptions)
    (hu : ∀ n ∈ nodes, ¬(n.tags.headD "" = "untagged")) :
    (layoutByTags nodes o).groups =
      (stableSort (fun a b => a.1 ≤ b.1)
        (groupFold (fun n => !n.tags.isEmpty) (fun n => n.tags.headD "") nodes [])).map
        (fun g => (g.1, (stableSort leY g.2).map Node.id)) ++
      (if (nodes.filter (fun n => n.tags.isEmpty)).isEmpty then []
       else [("untagged",
         (stableSort leY (nodes.filter (fun n => n.tags.isEmpty))).map Node.id)]) := by
  have hkeysTG : ((groupFold (fun n => !n.tags.isEmpty)
      (fun n => n.tags.headD "") nodes []).map Prod.fst).Nodup :=
    groupFold_keys_nodup _ _ nodes [] (by simp)
  have hperm := stableSort_perm (fun a b : String × List Node => a.1 ≤ b.1)
    (groupFold (fun n => !n.tags.isEmpty) (fun n => n.tags.headD "") nodes [])
  have hkeysE : ((stableSort (fun a b => a.1 ≤ b.1)
      (groupFold (fun n => !n.tags.isEmpty)
        (fun n => n.tags.headD "") nodes [])).map Prod.fst).Nodup :=
    ((hperm.map Prod.fst).nodup_iff).mpr hkeysTG
  have hneE : ∀ g ∈ stableSort (fun a b => a.1 ≤ b.1)
      (groupFold (fun n => !n.tags.isEmpty) (fun n => n.tags.headD "") nodes []),
      g.2 ≠ [] :=
    fun g hg => groupFold_mem_val_ne_nil _ _ nodes g (hperm.mem_iff.mp hg)
  have hnotin : "untagged" ∉ (stableSort (fun a b => a.1 ≤ b.1)
      (groupFold (fun n => !n.tags.isEmpty)
        (fun n => n.tags.headD "") nodes [])).map Prod.fst := by
    intro hmem
    have hmem2 : "untagged" ∈ (groupFold (fun n => !n.tags.isEmpty)
        (fun n => n.tags.headD "") nodes []).map Prod.fst :=
      ((hperm.map Prod.fst).mem_iff).mp hmem
    rcases groupFold_keys_mem _ _ nodes _ hmem2 with ⟨n, hn, _, hkey⟩
    exact hu n hn hkey
  rw [layoutByTags_eq]
  by_cases hUe : (nodes.filter (fun n => n.tags.isEmpty)).isEmpty
  · rw [if_pos hUe, if_pos hUe, List.append_nil]
    exact APFG_groups _ o hneE hkeysE
  · rw [if_neg hUe, if_neg hUe]
    have hne2 : ∀ g ∈ (stableSort (fun a b => a.1 ≤ b.1)
        (groupFold (fun n => !n.tags.isEmpty) (fun n => n.tags.headD "") nodes []) ++
        [("untagged", nodes.filter (fun n => n.tags.isEmpty))]), g.2 ≠ [] := by
      intro g hg
      rcases List.mem_append.mp hg with hg | hg
      · exact hneE g hg
      · rcases List.mem_singleton.mp hg with rfl
        intro h
        exact hUe (List.isEmpty_iff.mpr h)
    have hnd2 : (((stableSort (fun a b => a.1 ≤ b.1)
        (groupFold (fun n => !n.tags.isEmpty) (fun n => n.tags.headD "") nodes []) ++
        [("untagged", nodes.filter (fun n => n.tags.isEmpty))]).map Prod.fst)).Nodup := by
      rw [List.map_append, List.nodup_append]
      refine ⟨hkeysE, by simp, ?_⟩
      intro a ha hb
      simp only [List.map_cons, List.map_nil, List.mem_singleton] at hb
      rw [hb] at ha
      exact hnotin ha
    rw [APFG_groups _ o hne2 hnd2, List.map_append]
    rfl

/-- C8 counterexample: a node whose first tag is the literal string
"untagged" is merged into the fallback group of tagless nodes, so the
returned "untagged" group does not consist of the tagless nodes and there
is only one group instead of two. -/
theorem layoutByTags_untagged_tag_collision :
    (layoutByTags [taggedNode "A" ["untagged"], testNode "B"]
      DEFAULT_LAYOUT_OPTIONS).groups = [("untagged", ["A", "B"])] := by
  decide

/-- C8 (amended): provided no node's first tag is the literal string
"untagged", `layoutByTags` groups nodes by first tag: the group keys are
alphabetically ordered except that the "untagged" key, present exactly when
some node has an empty tag list, is last; the "untagged" group holds
exactly the tagless nodes, stably sorted by vertical coordinate; and every
other key's group holds exactly the nodes whose first tag equals that key,
stably sorted by vertical coordinate. -/
theorem layoutByTags_grouping (nodes : List Node) (o : LayoutOptions)
    (hu : ∀ n ∈ nodes, ¬(n.tags.headD "" = "untagged")) :
    ((layoutByTags nodes o).groups.map Prod.fst).Pairwise
        (fun a b => a ≤ b ∨ b = "untagged") ∧
    ("untagged" ∈ (layoutByTags nodes o).groups.map Prod.fst ↔
        nodes.filter (fun n => n.tags.isEmpty) ≠ []) ∧
    (nodes.filter (fun n => n.tags.isEmpty) ≠ [] →
        ((layoutByTags nodes o).groups.map Prod.fst).getLast? =
          some "untagged") ∧
    alGet (layoutByTags nodes o).groups "untagged" =
      (if (nodes.filter (fun n => n.tags.isEmpty)).isEmpty then none
       else some ((stableSort leY
         (nodes.filter (fun n => n.tags.isEmpty))).map Node.id)) ∧
    (∀ k, ¬(k = "untagged") →
      alGet (layoutByTags nodes o).groups k =
        (if (nodes.filter (fun n =>
              (!n.tags.isEmpty) && decide (n.tags.headD "" = k))).isEmpty
         then none
         else some ((stableSort leY (nodes.filter (fun n =>
            (!n.tags.isEmpty) && decide (n.tags.headD "" = k)))).map
            Node.id))) := by
  have hkeysTG : ((groupFold (fun n => !n.tags.isEmpty)
      (fun n => n.tags.headD "") nodes []).map Prod.fst).Nodup :=
    groupFold_keys_nodup _ _ nodes [] (by simp)
  have hperm := stableSort_perm (fun a b : String × List Node => a.1 ≤ b.1)
    (groupFold (fun n => !n.tags.isEmpty) (fun n => n.tags.headD "") nodes [])
  have hkeysE : ((stableSort (fun a b => a.1 ≤ b.1)
      (groupFold (fun n => !n.tags.isEmpty)
        (fun n => n.tags.headD "") nodes [])).map Prod.fst).Nodup :=
    ((hperm.map Prod.fst).nodup_iff).mpr hkeysTG
  have hnotin : "untagged" ∉ (stableSort (fun a b => a.1 ≤ b.1)
      (groupFold (fun n => !n.tags.isEmpty)
        (fun n => n.tags.headD "") nodes [])).map Prod.fst := by
    intro hmem
    have hmem2 : "untagged" ∈ (groupFold (fun n => !n.tags.isEmpty)
        (fun n => n.tags.headD "") nodes []).map Prod.fst :=
      ((hperm.map Prod.fst).mem_iff).mp hmem
    rcases groupFold_keys_mem _ _ nodes _ hmem2 with ⟨n, hn, _, hkey⟩
    exact hu n hn hkey
  have hkeysmap : (((stableSort (fun a b => a.1 ≤ b.1)
      (groupFold (fun n => !n.tags.isEmpty)
        (fun n => n.tags.headD "") nodes [])).map
      (fun g => (g.1, (stableSort leY g.2).map Node.id))).map Prod.fst) =
      (stableSort (fun a b => a.1 ≤ b.1)
        (groupFold (fun n => !n.tags.isEmpty)
          (fun n => n.tags.headD "") nodes [])).map Prod.fst := by
    rw [List.map_map]
    exact List.map_congr_left (fun g _ => rfl)
  have hpw : (((stableSort (fun a b => a.1 ≤ b.1)
      (groupFold (fun n => !n.tags.isEmpty)
        (fun n => n.tags.headD "") nodes [])).map Prod.fst)).Pairwise
      (fun a b : String => a ≤ b ∨ b = "untagged") := by
    refine List.pairwise_map.mpr ?_
    refine (stableSort_pairwise _ ?_ ?_
      (groupFold (fun n => !n.tags.isEmpty)
        (fun n => n.tags.headD "") nodes [])).imp ?_
    · intro a b
      rcases le_total a.1 b.1 with h | h
      · exact Or.inl (decide_eq_true h)
      · exact Or.inr (decide_eq_true h)
    · intro a b c hab hbc
      exact decide_eq_true
        (le_trans (of_decide_eq_true hab) (of_decide_eq_true hbc))
    · intro a b h
      exact Or.inl (of_decide_eq_true h)
  have he : ∀ k, alGet ((stableSort (fun a b => a.1 ≤ b.1)
      (groupFold (fun n => !n.tags.isEmpty)
        (fun n => n.tags.headD "") nodes [])).map
      (fun g => (g.1, (stableSort leY g.2).map Node.id))) k =
      (if (nodes.filter (fun n =>
            (!n.tags.isEmpty) && decide (n.tags.headD "" = k))).isEmpty
       then none
       else some ((stableSort leY (nodes.filter (fun n =>
          (!n.tags.isEmpty) && decide (n.tags.headD "" = k)))).map
          Node.id)) := by
    intro k
    have h1 := alGet_map (fun v => (stableSort leY v).map Node.id)
      (stableSort (fun a b => a.1 ≤ b.1)
        (groupFold (fun n => !n.tags.isEmpty)
          (fun n => n.tags.headD "") nodes [])) k
    rw [h1, alGet_perm_of_nodup _ _ hperm hkeysE k, groupFold_get_nil]
    by_cases hf : (nodes.filter (fun n =>
        (!n.tags.isEmpty) && decide (n.tags.headD "" = k))).isEmpty
    · rw [if_pos hf, if_pos hf]
      rfl
    · rw [if_neg hf, if_neg hf]
      rfl
  rw [layoutByTags_groups_eq nodes o hu]
  by_cases hUe : (nodes.filter (fun n => n.tags.isEmpty)).isEmpty
  · have hUnil : nodes.filter (fun n => n.tags.isEmpty) = [] :=
      List.isEmpty_iff.mp hUe
    rw [if_pos hUe, if_pos hUe, List.append_nil]
    refine ⟨?_, ?_, ?_, ?_, ?_⟩
    · rw [hkeysmap]
      exact hpw
    · constructor
      · intro h
        rw [hkeysmap] at h
        exact absurd h hnotin
      · intro h
        exact absurd hUnil h
    · intro h
      exact absurd hUnil h
    · apply (alGet_eq_none_iff _ _).mpr
      rw [hkeysmap]
      exact hnotin
    · intro k _
      exact he k
  · have hUne : nodes.filter (fun n => n.tags.isEmpty) ≠ [] :=
      fun h => hUe (List.isEmpty_iff.mpr h)
    rw [if_neg hUe]
    refine ⟨?_, ?_, ?_, ?_, ?_⟩
    · rw [List.map_append, hkeysmap]
      rw [List.pairwise_append]
      refine ⟨hpw, by simp, ?_⟩
      intro a _ b hb
      simp only [List.map_cons, List.map_nil, List.mem_singleton] at hb
      exact Or.inr hb
    · constructor
      · intro _
        exact hUne
      · intro _
        rw [List.map_append, hkeysmap]
        exact List.mem_append.mpr (Or.inr (by simp))
    · intro _
      rw [List.map_append, hkeysmap]
      exact getLast_append_single _ _
    · have h0 : alGet ((stableSort (fun a b => a.1 ≤ b.1)
          (groupFold (fun n => !n.tags.isEmpty)
            (fun n => n.tags.headD "") nodes [])).map
          (fun g => (g.1, (stableSort leY g.2).map Node.id)))
          "untagged" = none := by
        apply (alGet_eq_none_iff _ _).mpr
        rw [hkeysmap]
        exact hnotin
      rw [alGet_append_none _ _ _ h0, if_neg hUe]
      simp [alGet]
    · intro k hk
      rw [alGet_append_single_ne _ _ _ _ hk]
      exact he k

/-- Witness for C8 at the claim scenario: tag lists ["x"], ["x"], []. -/
theorem layoutByTags_grouping_witness :
    alGet (layoutByTags [taggedNode "n1" ["x"], taggedNode "n2" ["x"],
      testNode "n3"] DEFAULT_LAYOUT_OPTIONS).groups "untagged" =
        some ["n3"] ∧
    alGet (layoutByTags [taggedNode "n1" ["x"], taggedNode "n2" ["x"],
      testNode "n3"] DEFAULT_LAYOUT_OPTIONS).groups "x" =
        some ["n1", "n2"] ∧
    (layoutByTags [taggedNode "n1" ["x"], taggedNode "n2" ["x"],
      testNode "n3"] DEFAULT_LAYOUT_OPTIONS).groups =
      [("x", ["n1", "n2"]), ("untagged", ["n3"])] :=
  ⟨((layoutByTags_grouping [taggedNode "n1" ["x"], taggedNode "n2" ["x"],
      testNode "n3"] DEFAULT_LAYOUT_OPTIONS
      (by decide)).2.2.2.1).trans (by decide),
   (((layoutByTags_grouping [taggedNode "n1" ["x"], taggedNode "n2" ["x"],
      testNode "n3"] DEFAULT_LAYOUT_OPTIONS
      (by decide)).2.2.2.2) "x" (by decide)).trans (by decide),
   by decide⟩

/-! ### Congruence lemmas for layering with an unknown-endpoint edge -/

theorem buildIA_eq (nodes : List Node) (edges : List Edge) :
    buildIndegreeAdjacency nodes edges =
      edges.foldl edgeFoldStep
        (nodes.foldl (fun m n => alSet m n.id 0) [],
         nodes.foldl (fun m n => alSet m n.id []) []) := rfl

theorem alGet_middle_ne {κ α : Type _} [DecidableEq κ] (t : κ) (c : α) (k : κ)
    (h : ¬(k = t)) :
    ∀ (I K : List (κ × α)), alGet (I ++ (t, c) :: K) k = alGet (I ++ K) k
  | [], K => by
      simp only [List.nil_append, alGet]
      rw [if_neg (fun he => h he.symm)]
  | (a, b) :: I, K => by
      simp only [List.cons_append, alGet]
      by_cases h0 : a = k
      · rw [if_pos h0, if_pos h0]
      · rw [if_neg h0, if_neg h0]
        exact alGet_middle_ne t c k h I K

theorem alSet_middle_ne {κ α : Type _} [DecidableEq κ] (t : κ) (c : α) (k : κ)
    (v : α) (h : ¬(k = t)) :
    ∀ (I K : List (κ × α)), ∃ I2 K2,
      alSet (I ++ (t, c) :: K) k v = I2 ++ (t, c) :: K2 ∧
      alSet (I ++ K) k v = I2 ++ K2
  | [], K => by
      refine ⟨[], alSet K k v, ?_, rfl⟩
      simp only [List.nil_append, alSet]
      rw [if_neg (fun he => h he.symm)]
  | (a, b) :: I, K => by
      by_cases h0 : a = k
      · refine ⟨(k, v) :: I, K, ?_, ?_⟩
        · simp only [List.cons_append, alSet, List.append_eq]
          rw [if_pos h0]
        · simp only [List.cons_append, alSet, List.append_eq]
          rw [if_pos h0]
      · rcases alSet_middle_ne t c k v h I K with ⟨I2, K2, h1, h2⟩
        refine ⟨(a, b) :: I2, K2, ?_, ?_⟩
        · simp only [List.cons_append, alSet, List.append_eq]
          rw [if_neg h0, h1]
        · simp only [List.cons_append, alSet, List.append_eq]
          rw [if_neg h0, h2]

theorem filter_middle_ne_zero (t : String) (c : ℤ) (hc : ¬(c = 0))
    (I K : List (String × ℤ)) :
    (I ++ (t, c) :: K).filter (fun p => p.2 = 0) =
      (I ++ K).filter (fun p => p.2 = 0) := by
  rw [List.filter_append, List.filter_append,
    List.filter_cons_of_neg (by simpa using hc)]

theorem relaxNeighbor_congr (t n : String) (nl : ℤ) (hn : ¬(n = t))
    (I K : List (String × ℤ)) (c : ℤ) (L : List (String × ℤ))
    (P : List QItem) :
    ∃ I2 K2 S,
      relaxNeighbor nl (I ++ (t, c) :: K, L, P) n = (I2 ++ (t, c) :: K2, S) ∧
      relaxNeighbor nl (I ++ K, L, P) n = (I2 ++ K2, S) := by
  have hg : alGet (I ++ (t, c) :: K) n = alGet (I ++ K) n :=
    alGet_middle_ne t c n hn I K
  rcases alSet_middle_ne t c n ((alGet (I ++ K) n).getD 0 - 1) hn I K with
    ⟨I2, K2, hs1, hs2⟩
  by_cases hb : (alGet (I ++ K) n).getD 0 - 1 ≤ 0
  · refine ⟨I2, K2, (L, P ++ [⟨n, nl⟩]), ?_, ?_⟩
    · simp only [relaxNeighbor]
      rw [hg, if_pos hb, hs1]
    · simp only [relaxNeighbor]
      rw [if_pos hb, hs2]
  · refine ⟨I2, K2, (alSet L n (max ((alGet L n).getD 0) nl), P), ?_, ?_⟩
    · simp only [relaxNeighbor]
      rw [hg, if_neg hb, hs1]
    · simp only [relaxNeighbor]
      rw [if_neg hb, hs2]

theorem relaxFold_congr (t : String) (nl : ℤ) :
    ∀ (nbrs : List String), t ∉ nbrs →
    ∀ (I K : List (String × ℤ)) (c : ℤ) (L : List (String × ℤ))
      (P : List QItem),
    ∃ I2 K2 S,
      nbrs.foldl (relaxNeighbor nl) (I ++ (t, c) :: K, L, P) =
        (I2 ++ (t, c) :: K2, S) ∧
      nbrs.foldl (relaxNeighbor nl) (I ++ K, L, P) = (I2 ++ K2, S)
  | [], _, I, K, c, L, P => ⟨I, K, (L, P), rfl, rfl⟩
  | n :: rest, hmem, I, K, c, L, P => by
      have hn : ¬(n = t) := fun h => hmem (by rw [← h] at *; exact List.mem_cons_self n rest)
      have hrest : t ∉ rest := fun h => hmem (List.mem_cons_of_mem n h)
      rcases relaxNeighbor_congr t n nl hn I K c L P with ⟨I1, K1, S1, h1, h2⟩
      rw [List.foldl_cons, List.foldl_cons, h1, h2]
      exact relaxFold_congr t nl rest hrest I1 K1 c S1.1 S1.2

theorem blLoop_congr (adj : List (String × List String)) (t : String)
    (hadj : ∀ s l, alGet adj s = some l → t ∉ l) :
    ∀ (fuel : Nat) (q : List QItem) (I K : List (String × ℤ)) (c : ℤ)
      (layers : List (String × ℤ)),
    blLoop adj fuel q (I ++ (t, c) :: K) layers =
      blLoop adj fuel q (I ++ K) layers
  | fuel, [], I, K, c, layers => by simp only [blLoop]
  | 0, q :: rest, I, K, c, layers => by simp only [blLoop]
  | Nat.succ fuel, cur :: rest, I, K, c, layers => by
      simp only [blLoop]
      by_cases hskip : blSkip layers cur
      · rw [if_pos hskip, if_pos hskip]
        exact blLoop_congr adj t hadj fuel rest I K c layers
      · rw [if_neg hskip, if_neg hskip]
        have hnbr : t ∉ (alGet adj cur.id).getD [] := by
          rcases h0 : alGet adj cur.id with _ | l
          · simp
          · simpa using hadj cur.id l h0
        rcases relaxFold_congr t (cur.layer + 1) ((alGet adj cur.id).getD [])
          hnbr I K c (alSet layers cur.id cur.layer) [] with ⟨I2, K2, S, h1, h2⟩
        rw [h1, h2]
        exact blLoop_congr adj t hadj fuel (rest ++ S.2) I2 K2 c S.1

theorem edgeFold_unknown_target (t : String) :
    ∀ (post : List Edge) (I K : List (String × ℤ)) (c : ℤ)
      (A : List (String × List String)),
    (∀ e2 ∈ post, isDirectional e2.type = true → ¬(e2.targetId = t)) →
    ∃ I2 K2 A2,
      post.foldl edgeFoldStep (I ++ (t, c) :: K, A) = (I2 ++ (t, c) :: K2, A2) ∧
      post.foldl edgeFoldStep (I ++ K, A) = (I2 ++ K2, A2)
  | [], I, K, c, A, _ => ⟨I, K, A, rfl, rfl⟩
  | e2 :: rest, I, K, c, A, h3 => by
      have h3r : ∀ x ∈ rest, isDirectional x.type = true → ¬(x.targetId = t) :=
        fun x hx => h3 x (List.mem_cons_of_mem e2 hx)
      rw [List.foldl_cons, List.foldl_cons]
      by_cases hd : isDirectional e2.type = false
      · have hid1 : edgeFoldStep (I ++ (t, c) :: K, A) e2 = (I ++ (t, c) :: K, A) := by
          simp [edgeFoldStep, hd]
        have hid2 : edgeFoldStep (I ++ K, A) e2 = (I ++ K, A) := by
          simp [edgeFoldStep, hd]
        rw [hid1, hid2]
        exact edgeFold_unknown_target t rest I K c A h3r
      · have hd2 : isDirectional e2.type = true := by
          rcases Bool.eq_false_or_eq_true (isDirectional e2.type) with h | h
          · exact h
          · exact absurd h hd
        have hnt : ¬(e2.targetId = t) := h3 e2 (List.mem_cons_self e2 rest) hd2
        have hg := alGet_middle_ne t c e2.targetId hnt I K
        rcases alSet_middle_ne t c e2.targetId
          ((alGet (I ++ K) e2.targetId).getD 0 + 1) hnt I K with ⟨I1, K1, hs1, hs2⟩
        have hstep1 : edgeFoldStep (I ++ (t, c) :: K, A) e2 =
            (I1 ++ (t, c) :: K1,
             match alGet A e2.sourceId with
             | some ns => alSet A e2.sourceId (ns ++ [e2.targetId])
             | none => A) := by
          simp only [edgeFoldStep, if_neg hd]
          rw [hg, hs1]
        have hstep2 : edgeFoldStep (I ++ K, A) e2 =
            (I1 ++ K1,
             match alGet A e2.sourceId with
             | some ns => alSet A e2.sourceId (ns ++ [e2.targetId])
             | none => A) := by
          simp only [edgeFoldStep, if_neg hd]
          rw [hs2]
        rw [hstep1, hstep2]
        exact edgeFold_unknown_target t rest I1 K1 c _ h3r

theorem edgeFold_ind_get_none (t : String) :
    ∀ (edges : List Edge)
      (acc : List (String × ℤ) × List (String × List String)),
    (∀ e2 ∈ edges, isDirectional e2.type = true → ¬(e2.targetId = t)) →
    alGet acc.1 t = none →
    alGet (edges.foldl edgeFoldStep acc).1 t = none
  | [], _, _, h => h
  | e :: rest, acc, h3, h => by
      rw [List.foldl_cons]
      apply edgeFold_ind_get_none t rest _
        (fun x hx => h3 x (List.mem_cons_of_mem e hx))
      by_cases hd : isDirectional e.type = false
      · simpa [edgeFoldStep, hd] using h
      · have hd2 : isDirectional e.type = true := by
          rcases Bool.eq_false_or_eq_true (isDirectional e.type) with hb | hb
          · exact hb
          · exact absurd hb hd
        have hnt : ¬(e.targetId = t) := h3 e (List.mem_cons_self e rest) hd2
        simp only [edgeFoldStep, if_neg hd]
        rw [alGet_alSet_ne _ _ _ _ hnt]
        exact h

theorem edgeFold_adj_get_none (k : String) :
    ∀ (edges : List Edge)
      (acc : List (String × ℤ) × List (String × List String)),
    alGet acc.2 k = none →
    alGet (edges.foldl edgeFoldStep acc).2 k = none
  | [], _, h => h
  | e :: rest, acc, h => by
      rw [List.foldl_cons]
      apply edgeFold_adj_get_none k rest
      by_cases hd : isDirectional e.type = false
      · simpa [edgeFoldStep, hd] using h
      · simp only [edgeFoldStep, if_neg hd]
        rcases h0 : alGet acc.2 e.sourceId with _ | ns
        · simpa [h0] using h
        · have hks : e.sourceId ≠ k := by
            intro he
            rw [he, h] at h0
            exact Option.noConfusion h0
          simp only [h0]
          rw [alGet_alSet_ne _ _ _ _ hks]
          exact h

theorem edgeFold_adj_targets (t : String) :
    ∀ (edges : List Edge)
      (acc : List (String × ℤ) × List (String × List String)),
    (∀ e2 ∈ edges, isDirectional e2.type = true → ¬(e2.targetId = t)) →
    (∀ s l, alGet acc.2 s = some l → t ∉ l) →
    ∀ s l, alGet (edges.foldl edgeFoldStep acc).2 s = some l → t ∉ l
  | [], _, _, hacc => hacc
  | e :: rest, acc, h3, hacc => by
      rw [List.foldl_cons]
      apply edgeFold_adj_targets t rest _
        (fun x hx => h3 x (List.mem_cons_of_mem e hx))
      by_cases hd : isDirectional e.type = false
      · simpa [edgeFoldStep, hd] using hacc
      · have hd2 : isDirectional e.type = true := by
          rcases Bool.eq_false_or_eq_true (isDirectional e.type) with hb | hb
          · exact hb
          · exact absurd hb hd
        have hnt : ¬(e.targetId = t) := h3 e (List.mem_cons_self e rest) hd2
        simp only [edgeFoldStep, if_neg hd]
        rcases h0 : alGet acc.2 e.sourceId with _ | ns
        · simpa [h0] using hacc
        · simp only [h0]
          intro s l hl hmem
          by_cases hs : e.sourceId = s
          · rw [← hs, alGet_alSet_self] at hl
            injection hl with hl
            rw [← hl] at hmem
            rcases List.mem_append.mp hmem with hm | hm
            · exact hacc e.sourceId ns h0 hm
            · exact hnt (List.mem_singleton.mp hm).symm
          · rw [alGet_alSet_ne _ _ _ _ hs] at hl
            exact hacc s l hl hmem

theorem foldl_alSet_get_none {κ α : Type _} [DecidableEq κ] (v : α) (t : κ) :
    ∀ (nodes : List Node) (acc : List (κ × α)) (f : Node → κ),
    alGet acc t = none → (∀ n ∈ nodes, ¬(f n = t)) →
    alGet (nodes.foldl (fun m n => alSet m (f n) v) acc) t = none
  | [], _, _, h, _ => h
  | n :: rest, acc, f, h, hne => by
      rw [List.foldl_cons]
      apply foldl_alSet_get_none v t rest _ f _
        (fun x hx => hne x (List.mem_cons_of_mem n hx))
      rw [alGet_alSet_ne _ _ _ _ (hne n (List.mem_cons_self n rest))]
      exact h

theorem foldl_alSet_const_get {κ α : Type _} [DecidableEq κ] (v : α) :
    ∀ (nodes : List Node) (acc : List (κ × α)) (f : Node → κ),
    (∀ k w, alGet acc k = some w → w = v) →
    ∀ k w, alGet (nodes.foldl (fun m n => alSet m (f n) v) acc) k = some w →
      w = v
  | [], _, _, h => h
  | n :: rest, acc, f, h => by
      rw [List.foldl_cons]
      apply foldl_alSet_const_get v rest _ f
      intro k w hk
      rcases alGet_alSet_cases acc (f n) k v w hk with hw | hw
      · exact hw
      · exact h k w hw

theorem buildLayers_unknown_edge (fuel : Nat) (nodes : List Node)
    (pre post : List Edge) (e : Edge)
    (hd : isDirectional e.type = true)
    (hs : e.sourceId ∉ nodes.map Node.id)
    (ht : e.targetId ∉ nodes.map Node.id)
    (h3 : ∀ e2 ∈ pre ++ post, isDirectional e2.type = true →
      ¬(e2.targetId = e.targetId)) :
    buildLayers fuel nodes (pre ++ e :: post) =
      buildLayers fuel nodes (pre ++ post) := by
  have h3pre : ∀ e2 ∈ pre, isDirectional e2.type = true →
      ¬(e2.targetId = e.targetId) :=
    fun x hx => h3 x (List.mem_append.mpr (Or.inl hx))
  have h3post : ∀ e2 ∈ post, isDirectional e2.type = true →
      ¬(e2.targetId = e.targetId) :=
    fun x hx => h3 x (List.mem_append.mpr (Or.inr hx))
  have hind0 : alGet (nodes.foldl (fun m n => alSet m n.id (0 : ℤ)) [])
      e.targetId = none :=
    foldl_alSet_get_none 0 e.targetId nodes [] Node.id rfl
      (fun n hn he => ht (by rw [← he]; exact List.mem_map.mpr ⟨n, hn, rfl⟩))
  have hadj0 : alGet (nodes.foldl (fun m n => alSet m n.id ([] : List String)) [])
      e.sourceId = none :=
    foldl_alSet_get_none [] e.sourceId nodes [] Node.id rfl
      (fun n hn he => hs (by rw [← he]; exact List.mem_map.mpr ⟨n, hn, rfl⟩))
  have hSind : alGet (pre.foldl edgeFoldStep
      (nodes.foldl (fun m n => alSet m n.id (0 : ℤ)) [],
       nodes.foldl (fun m n => alSet m n.id ([] : List String)) [])).1
      e.targetId = none :=
    edgeFold_ind_get_none e.targetId pre _ h3pre hind0
  have hSadj : alGet (pre.foldl edgeFoldStep
      (nodes.foldl (fun m n => alSet m n.id (0 : ℤ)) [],
       nodes.foldl (fun m n => alSet m n.id ([] : List String)) [])).2
      e.sourceId = none :=
    edgeFold_adj_get_none e.sourceId pre _ hadj0
  have hdf : ¬(isDirectional e.type = false) := by
    intro hb
    rw [hd] at hb
    exact Bool.noConfusion hb
  have hstep : edgeFoldStep (pre.foldl edgeFoldStep
      (nodes.foldl (fun m n => alSet m n.id (0 : ℤ)) [],
       nodes.foldl (fun m n => alSet m n.id ([] : List String)) [])) e =
      ((pre.foldl edgeFoldStep
        (nodes.foldl (fun m n => alSet m n.id (0 : ℤ)) [],
         nodes.foldl (fun m n => alSet m n.id ([] : List String)) [])).1 ++
        (e.targetId, 1) :: [],
       (pre.foldl edgeFoldStep
        (nodes.foldl (fun m n => alSet m n.id (0 : ℤ)) [],
         nodes.foldl (fun m n => alSet m n.id ([] : List String)) [])).2) := by
    simp only [edgeFoldStep, if_neg hdf]
    rw [hSadj, hSind]
    simp only [Option.getD_none, zero_add]
    rw [alSet_of_get_none _ _ _ hSind]
  rcases edgeFold_unknown_target e.targetId post
    (pre.foldl edgeFoldStep
      (nodes.foldl (fun m n => alSet m n.id (0 : ℤ)) [],
       nodes.foldl (fun m n => alSet m n.id ([] : List String)) [])).1 [] 1
    (pre.foldl edgeFoldStep
      (nodes.foldl (fun m n => alSet m n.id (0 : ℤ)) [],
       nodes.foldl (fun m n => alSet m n.id ([] : List String)) [])).2
    h3post with ⟨I2, K2, A2, hf1, hf2⟩
  rw [List.append_nil] at hf2
  have hia1 : buildIndegreeAdjacency nodes (pre ++ e :: post) =
      (I2 ++ (e.targetId, 1) :: K2, A2) := by
    rw [buildIA_eq, List.foldl_append, List.foldl_cons, hstep]
    exact hf1
  have hia2 : buildIndegreeAdjacency nodes (pre ++ post) =
      (I2 ++ K2, A2) := by
    rw [buildIA_eq, List.foldl_append]
    exact hf2
  have hadj0safe : ∀ s l,
      alGet (nodes.foldl (fun m n => alSet m n.id ([] : List String)) []) s =
        some l → e.targetId ∉ l := by
    intro s l hl hm
    have hlnil : l = [] :=
      foldl_alSet_const_get ([] : List String) nodes [] Node.id
        (fun k w hw => Option.noConfusion hw) s l hl
    rw [hlnil] at hm
    exact List.not_mem_nil _ hm
  have hpresafe := edgeFold_adj_targets e.targetId pre
    (nodes.foldl (fun m n => alSet m n.id (0 : ℤ)) [],
     nodes.foldl (fun m n => alSet m n.id ([] : List String)) [])
    h3pre hadj0safe
  have hpostsafe := edgeFold_adj_targets e.targetId post
    ((pre.foldl edgeFoldStep
      (nodes.foldl (fun m n => alSet m n.id (0 : ℤ)) [],
       nodes.foldl (fun m n => alSet m n.id ([] : List String)) [])).1 ++
      (e.targetId, 1) :: [],
     (pre.foldl edgeFoldStep
      (nodes.foldl (fun m n => alSet m n.id (0 : ℤ)) [],
       nodes.foldl (fun m n => alSet m n.id ([] : List String)) [])).2)
    h3post hpresafe
  have hA2safe : ∀ s l, alGet A2 s = some l → e.targetId ∉ l := by
    intro s l hl
    exact hpostsafe s l (by rw [hf1]; exact hl)
  have hq := filter_middle_ne_zero e.targetId 1 one_ne_zero I2 K2
  simp only [buildLayers]
  rw [hia1, hia2]
  dsimp only
  rw [hq, blLoop_congr A2 e.targetId hA2safe fuel _ I2 K2 1 []]

theorem buildLayers_congr_ia (fuel : Nat) (nodes : List Node)
    (edges1 edges2 : List Edge)
    (h : buildIndegreeAdjacency nodes edges1 =
      buildIndegreeAdjacency nodes edges2) :
    buildLayers fuel nodes edges1 = buildLayers fuel nodes edges2 := by
  simp only [buildLayers]
  rw [h]

/-- C3 (amended): an edge that is not directional, or whose source and
target ids are both unknown provided no directional edge elsewhere in the
edge list shares its target id, has no effect on `computeLayout`: deleting
it from the edge list leaves the result unchanged in every mode. -/
theorem computeLayout_fully_unknown_edge (fuel : Nat) (mode : LayoutMode)
    (nodes : List Node) (pre post : List Edge) (e : Edge)
    (options : LayoutOptions)
    (h : isDirectional e.type = false ∨
      (e.sourceId ∉ nodes.map Node.id ∧ e.targetId ∉ nodes.map Node.id ∧
        ∀ e2 ∈ pre ++ post, isDirectional e2.type = true →
          ¬(e2.targetId = e.targetId))) :
    computeLayout fuel mode nodes (pre ++ e :: post) options =
      computeLayout fuel mode nodes (pre ++ post) options := by
  have hbl : buildLayers fuel nodes (pre ++ e :: post) =
      buildLayers fuel nodes (pre ++ post) := by
    by_cases hdf : isDirectional e.type = false
    · apply buildLayers_congr_ia
      rw [buildIA_eq, buildIA_eq, List.foldl_append, List.foldl_append,
        List.foldl_cons]
      have hid : ∀ acc : List (String × ℤ) × List (String × List String),
          edgeFoldStep acc e = acc := fun acc => by simp [edgeFoldStep, hdf]
      rw [hid]
    · rcases h with h | ⟨hs, ht, h3⟩
      · exact absurd h hdf
      · have hd : isDirectional e.type = true := by
          rcases Bool.eq_false_or_eq_true (isDirectional e.type) with hb | hb
          · exact hb
          · exact absurd hb hdf
        exact buildLayers_unknown_edge fuel nodes pre post e hd hs ht h3
  cases mode with
  | byTags => rfl
  | byTypes => rfl
  | byTime => rfl
  | byCausality =>
      simp only [computeLayout, computeFlowGridLayout]
      rw [hbl]
  | flowGrid =>
      simp only [computeLayout, computeFlowGridLayout]
      rw [hbl]

/-- Witness for C3: a directional edge between two ghost ids is dropped
without changing the flow layout. -/
theorem computeLayout_fully_unknown_edge_witness :
    computeLayout 20 .flowGrid [testNode "A", testNode "B"]
      ([causalEdge "A" "B"] ++ (⟨"ghost", "X", "Y", .CAUSES⟩ : Edge) :: [])
      DEFAULT_LAYOUT_OPTIONS =
      computeLayout 20 .flowGrid [testNode "A", testNode "B"]
        ([causalEdge "A" "B"] ++ []) DEFAULT_LAYOUT_OPTIONS :=
  computeLayout_fully_unknown_edge 20 .flowGrid [testNode "A", testNode "B"]
    [causalEdge "A" "B"] [] ⟨"ghost", "X", "Y", .CAUSES⟩
    DEFAULT_LAYOUT_OPTIONS (Or.inr ⟨by decide, by decide, by decide⟩)

/-- C10: for distinct node ids, `computeLayout` is total and partitioning in
every mode — the positions map contains exactly the input ids, and every
input id occurs in exactly one group (counted across all group lists). -/
theorem computeLayout_total_partition (fuel : Nat) (mode : LayoutMode)
    (nodes : List Node) (edges : List Edge) (options : LayoutOptions)
    (hids : (nodes.map Node.id).Nodup) (r : LayoutComputation)
    (hr : computeLayout fuel mode nodes edges options = some r) :
    (∀ id, (alGet r.positions id).isSome ↔ id ∈ nodes.map Node.id) ∧
    (∀ id, id ∈ nodes.map Node.id →
      (r.groups.map Prod.snd).flatten.count id = 1) := by
  suffices h : (∀ id, (alGet r.positions id).isSome ↔ id ∈ nodes.map Node.id) ∧
      (r.groups.map Prod.snd).flatten.Perm (nodes.map Node.id) by
    refine ⟨h.1, fun id hmem => ?_⟩
    rw [h.2.count_eq]
    exact List.count_eq_one_of_mem hids hmem
  cases mode with
  | byTags =>
      have hr2 := Option.some_injective _ (by simpa [computeLayout] using hr)
      rw [← hr2, layoutByTags_eq]
      exact APFG_pos_groups _ options nodes (byTags_columns_perm nodes)
  | byTypes =>
      have hr2 := Option.some_injective _ (by simpa [computeLayout] using hr)
      rw [← hr2, layoutByTypes_eq]
      exact APFG_pos_groups _ options nodes (byTypes_columns_perm nodes)
  | byTime =>
      have hr2 := Option.some_injective _ (by simpa [computeLayout] using hr)
      rw [← hr2]
      by_cases hne : nodes = []
      · subst hne
        constructor
        · intro id
          simp [layoutByTime, alGet]
        · simp [layoutByTime]
      · exact layoutByTime_pos_groups nodes options hne
  | byCausality =>
      by_cases hne : nodes = []
      · subst hne
        have hr2 : (⟨[], [], []⟩ : LayoutComputation) = r :=
          Option.some_injective _
            (by simpa [computeLayout, computeFlowGridLayout] using hr)
        rw [← hr2]
        constructor
        · intro id
          simp [alGet]
        · simp
      · exact computeFlowGridLayout_pos_groups fuel nodes edges options r hne
          (by simpa [computeLayout] using hr)
  | flowGrid =>
      by_cases hne : nodes = []
      · subst hne
        have hr2 : (⟨[], [], []⟩ : LayoutComputation) = r :=
          Option.some_injective _
            (by simpa [computeLayout, computeFlowGridLayout] using hr)
        rw [← hr2]
        constructor
        · intro id
          simp [alGet]
        · simp
      · exact computeFlowGridLayout_pos_groups fuel nodes edges options r hne
          (by simpa [computeLayout] using hr)

/-- Witness for C10 at a concrete flowGrid input: three distinct ids, one
causal edge. -/
theorem computeLayout_total_partition_witness :
    (∀ id, (alGet (Option.getD (computeLayout 20 .flowGrid
        [testNode "C", testNode "B", testNode "D"] [causalEdge "C" "B"]
        DEFAULT_LAYOUT_OPTIONS) ⟨[], [], []⟩).positions id).isSome ↔
      id ∈ [testNode "C", testNode "B", testNode "D"].map Node.id) ∧
    (∀ id, id ∈ [testNode "C", testNode "B", testNode "D"].map Node.id →
      ((Option.getD (computeLayout 20 .flowGrid
        [testNode "C", testNode "B", testNode "D"] [causalEdge "C" "B"]
        DEFAULT_LAYOUT_OPTIONS) ⟨[], [], []⟩).groups.map Prod.snd).flatten.count id
        = 1) :=
  computeLayout_total_partition 20 .flowGrid
    [testNode "C", testNode "B", testNode "D"] [causalEdge "C" "B"]
    DEFAULT_LAYOUT_OPTIONS (by decide) _ (by decide)

end MindOS
